import Mathlib

/-!
Verification of the Rivet multi-document session manager.

Shallow embedding of the relevant Rust code:
* `src/app.rs` — encoding detection/transcoding (`detect_and_decode`,
  `encode_for_disk`), EOL detection (`detect_eol`), document state and
  `App::save`;
* `src/editor/scintilla/mod.rs` — the high-level search driver
  (`find_next`, `replace_all`) over an editor-view state;
* `src/platform/win32/window.rs` — `handle_replace_once`, the tab
  lifecycle handlers;
* `src/session/mod.rs` — session snapshot deserialization and `load`.

Bytes are modelled as `Nat` (with explicit `< 256` hypotheses where byte
range matters), Rust `String` values as lists of Unicode scalar values
(`Nat`), and fallible operations as `Option`/`Except`.
-/

set_option maxRecDepth 16000

namespace Rivet

/-- The character encoding of the document on disk (`Encoding` in `app.rs`). -/
inductive Encoding where
  | Utf8
  | Utf16Le
  | Utf16Be
  | Ansi
deriving DecidableEq, Repr

/-- The end-of-line convention used by the document (`EolMode` in `app.rs`). -/
inductive EolMode where
  | Crlf
  | Lf
  | Cr
deriving DecidableEq, Repr

/-! ### EOL detection (`App::detect_eol`, src/app.rs lines 258-287) -/

/-- The scanning loop of `App::detect_eol`: walks the byte list with three
counters, counting `\r\n` as one CRLF unit (advancing past both bytes),
a lone `\r` as CR and a lone `\n` as LF, then applies the tie-break chain
`crlf >= lf && crlf >= cr → Crlf`, `lf >= cr → Lf`, else `Cr`. -/
def detectEolGo : List Nat → Nat → Nat → Nat → EolMode
  | [], crlf, lf, cr =>
      if crlf ≥ lf ∧ crlf ≥ cr then .Crlf else if lf ≥ cr then .Lf else .Cr
  | 13 :: 10 :: rest, crlf, lf, cr => detectEolGo rest (crlf + 1) lf cr
  | 13 :: rest, crlf, lf, cr => detectEolGo rest crlf lf (cr + 1)
  | 10 :: rest, crlf, lf, cr => detectEolGo rest crlf (lf + 1) cr
  | _ :: rest, crlf, lf, cr => detectEolGo rest crlf lf cr

/-- `App::detect_eol` (src/app.rs): dominant EOL style of UTF-8 text. -/
def detect_eol (utf8 : List Nat) : EolMode := detectEolGo utf8 0 0 0

/-- Counts of the three disjoint EOL patterns in one forward scan:
`(crlf, lf, cr)`.  A `\r\n` pair counts once as CRLF and the scan advances
past both bytes, so neither byte is also counted as a lone `\r` or `\n`. -/
def eolCounts : List Nat → Nat × Nat × Nat
  | [] => (0, 0, 0)
  | 13 :: 10 :: rest =>
      ((eolCounts rest).1 + 1, (eolCounts rest).2.1, (eolCounts rest).2.2)
  | 13 :: rest =>
      ((eolCounts rest).1, (eolCounts rest).2.1, (eolCounts rest).2.2 + 1)
  | 10 :: rest =>
      ((eolCounts rest).1, (eolCounts rest).2.1 + 1, (eolCounts rest).2.2)
  | _ :: rest => eolCounts rest

/-- The EOL tie-break chain of `App::detect_eol`: CRLF wins ties with LF and
CR, LF wins ties with CR, and all-zero counts fall into the CRLF branch. -/
def eolTiebreak (crlf lf cr : Nat) : EolMode :=
  if crlf ≥ lf ∧ crlf ≥ cr then .Crlf else if lf ≥ cr then .Lf else .Cr

theorem detectEolGo_crlf (r : List Nat) (a b c : Nat) :
    detectEolGo (13 :: 10 :: r) a b c = detectEolGo r (a + 1) b c := rfl

theorem detectEolGo_cr_nil (a b c : Nat) :
    detectEolGo [13] a b c = detectEolGo [] a b (c + 1) := rfl

theorem detectEolGo_cr (b2 : Nat) (r : List Nat) (a b c : Nat)
    (h : b2 ≠ 10) :
    detectEolGo (13 :: b2 :: r) a b c = detectEolGo (b2 :: r) a b (c + 1) := by
  simp [detectEolGo, h]

theorem detectEolGo_lf (r : List Nat) (a b c : Nat) :
    detectEolGo (10 :: r) a b c = detectEolGo r a (b + 1) c := by
  simp [detectEolGo]

theorem detectEolGo_other (x : Nat) (r : List Nat) (a b c : Nat)
    (h13 : x ≠ 13) (h10 : x ≠ 10) :
    detectEolGo (x :: r) a b c = detectEolGo r a b c := by
  simp [detectEolGo, h13, h10]

theorem eolCounts_crlf (r : List Nat) :
    eolCounts (13 :: 10 :: r) =
      ((eolCounts r).1 + 1, (eolCounts r).2.1, (eolCounts r).2.2) := rfl

theorem eolCounts_cr_nil : eolCounts [13] = (0, 0, 1) := rfl

theorem eolCounts_cr (b2 : Nat) (r : List Nat) (h : b2 ≠ 10) :
    eolCounts (13 :: b2 :: r) =
      ((eolCounts (b2 :: r)).1, (eolCounts (b2 :: r)).2.1,
        (eolCounts (b2 :: r)).2.2 + 1) := by
  simp [eolCounts, h]

theorem eolCounts_lf (r : List Nat) :
    eolCounts (10 :: r) =
      ((eolCounts r).1, (eolCounts r).2.1 + 1, (eolCounts r).2.2) := by
  simp [eolCounts]

theorem eolCounts_other (x : Nat) (r : List Nat) (h13 : x ≠ 13)
    (h10 : x ≠ 10) : eolCounts (x :: r) = eolCounts r := by
  simp [eolCounts, h13, h10]

theorem detectEolGo_eq_counts :
    (l : List Nat) → (crlf lf cr : Nat) →
      detectEolGo l crlf lf cr =
        eolTiebreak (crlf + (eolCounts l).1) (lf + (eolCounts l).2.1)
          (cr + (eolCounts l).2.2)
  | [], crlf, lf, cr => by
      simp [detectEolGo, eolCounts, eolTiebreak]
  | [b], crlf, lf, cr => by
      by_cases hb : b = 13
      · subst hb
        rw [detectEolGo_cr_nil, eolCounts_cr_nil,
          detectEolGo_eq_counts [] crlf lf (cr + 1)]
        simp [eolCounts]
      · by_cases hb10 : b = 10
        · subst hb10
          rw [detectEolGo_lf, eolCounts_lf,
            detectEolGo_eq_counts [] crlf (lf + 1) cr]
          simp [eolCounts]
        · rw [detectEolGo_other b [] crlf lf cr hb hb10,
            eolCounts_other b [] hb hb10]
          simp [detectEolGo, eolCounts, eolTiebreak]
  | b :: b2 :: rest, crlf, lf, cr => by
      by_cases hb : b = 13
      · subst hb
        by_cases hb2 : b2 = 10
        · subst hb2
          rw [detectEolGo_crlf, eolCounts_crlf,
            detectEolGo_eq_counts rest (crlf + 1) lf cr]
          rcases h2 : eolCounts rest with ⟨x, y, z⟩
          simp only [h2]
          have e : crlf + 1 + x = crlf + (x + 1) := by omega
          rw [e]
        · rw [detectEolGo_cr b2 rest crlf lf cr hb2, eolCounts_cr b2 rest hb2,
            detectEolGo_eq_counts (b2 :: rest) crlf lf (cr + 1)]
          rcases h2 : eolCounts (b2 :: rest) with ⟨x, y, z⟩
          simp only [h2]
          have e : cr + 1 + z = cr + (z + 1) := by omega
          rw [e]
      · by_cases hb10 : b = 10
        · subst hb10
          rw [detectEolGo_lf, eolCounts_lf,
            detectEolGo_eq_counts (b2 :: rest) crlf (lf + 1) cr]
          rcases h2 : eolCounts (b2 :: rest) with ⟨x, y, z⟩
          simp only [h2]
          have e : lf + 1 + y = lf + (y + 1) := by omega
          rw [e]
        · rw [detectEolGo_other b (b2 :: rest) crlf lf cr hb hb10,
            eolCounts_other b (b2 :: rest) hb hb10,
            detectEolGo_eq_counts (b2 :: rest) crlf lf cr]
termination_by l => l.length

theorem eolCounts_no_eol :
    ∀ l : List Nat, 13 ∉ l → 10 ∉ l → eolCounts l = (0, 0, 0) := by
  intro l
  induction l with
  | nil => intro _ _; rfl
  | cons b rest ih =>
      intro h13 h10
      simp only [List.mem_cons, not_or] at h13 h10
      rw [eolCounts_other b rest (fun e => h13.1 e.symm)
        (fun e => h10.1 e.symm)]
      exact ih h13.2 h10.2

/-- **C4.** `detect_eol` is a single forward scan counting the three disjoint
patterns `\r\n` (one CRLF unit, advancing 2), lone `\r` (CR) and lone `\n`
(LF): its result is the tie-break chain over those counts, in which CRLF wins
ties with LF and with CR and LF wins ties with CR; and when the input contains
no `\r` and no `\n` at all, the result is CRLF. -/
theorem C4_detect_eol_counts_and_tiebreak (utf8 : List Nat) :
    (detect_eol utf8 =
      eolTiebreak (eolCounts utf8).1 (eolCounts utf8).2.1
        (eolCounts utf8).2.2)
    ∧ (13 ∉ utf8 → 10 ∉ utf8 → detect_eol utf8 = EolMode.Crlf) := by
  have hmain : detect_eol utf8 =
      eolTiebreak (eolCounts utf8).1 (eolCounts utf8).2.1
        (eolCounts utf8).2.2 := by
    rw [detect_eol, detectEolGo_eq_counts utf8 0 0 0]
    simp
  refine ⟨hmain, fun h13 h10 => ?_⟩
  rw [hmain, eolCounts_no_eol utf8 h13 h10]
  rfl

/-- Witness for C4: evaluates the no-line-endings clause at a concrete
input, and checks the spec's own examples of the tie-break. -/
theorem C4_witness :
    detect_eol [110, 111] = EolMode.Crlf ∧
    detect_eol [97, 13, 10, 98, 13, 10, 99, 10] = EolMode.Crlf ∧
    detect_eol [97, 10, 98, 10, 99, 10] = EolMode.Lf :=
  ⟨(C4_detect_eol_counts_and_tiebreak [110, 111]).2 (by decide) (by decide),
    by decide, by decide⟩

/-! ### Encoding detection and transcoding (`App::detect_and_decode`,
`App::encode_for_disk`, src/app.rs lines 165-187 and 217-252)

The Rust code uses the standard library primitives
`u16::from_le_bytes`/`from_be_bytes` over `chunks_exact(2)`,
`String::from_utf16_lossy`, `String::from_utf8_lossy`,
`str::encode_utf16` and `std::str::from_utf8(..).is_ok()`.  These are
embedded below over byte lists and scalar-value lists with the semantics
documented for the Rust standard library (USV = Unicode scalar value):

* UTF-16 lossy decoding turns each unpaired or reversed surrogate unit
  into U+FFFD and keeps a buffered second unit for the next step;
* UTF-8 lossy decoding replaces each maximal invalid subpart with one
  U+FFFD (error lengths 1/2/3 exactly as in `core::str::validations`),
  and an incomplete trailing sequence with one U+FFFD;
* `encode_utf16` emits one unit for BMP scalars and a surrogate pair for
  supplementary scalars. -/

/-- `chunks_exact(2)` + `u16::from_le_bytes`: pairs of bytes to 16-bit units,
little-endian, discarding a trailing unpaired byte. -/
def toUnitsLE : List Nat → List Nat
  | b0 :: b1 :: rest => (b0 + 256 * b1) :: toUnitsLE rest
  | _ => []

/-- `chunks_exact(2)` + `u16::from_be_bytes`: big-endian variant. -/
def toUnitsBE : List Nat → List Nat
  | b0 :: b1 :: rest => (256 * b0 + b1) :: toUnitsBE rest
  | _ => []

/-- `String::from_utf16_lossy` viewed as units → scalar values:
non-surrogate units pass through, a high+low surrogate pair combines into
one supplementary scalar, and any other surrogate unit becomes U+FFFD
(the unit after a failed pair is retained for the next step). -/
def utf16DecodeLossy : List Nat → List Nat
  | [] => []
  | [u] => if u < 0xD800 ∨ 0xE000 ≤ u then [u] else [0xFFFD]
  | u :: l :: rest =>
      if u < 0xD800 ∨ 0xE000 ≤ u then u :: utf16DecodeLossy (l :: rest)
      else if u < 0xDC00 ∧ 0xDC00 ≤ l ∧ l < 0xE000 then
        (0x10000 + (u - 0xD800) * 0x400 + (l - 0xDC00)) ::
          utf16DecodeLossy rest
      else 0xFFFD :: utf16DecodeLossy (l :: rest)

/-- UTF-8 encoding of one Unicode scalar value (1-4 bytes). -/
def utf8EncodeChar (c : Nat) : List Nat :=
  if c < 0x80 then [c]
  else if c < 0x800 then [0xC0 + c / 64, 0x80 + c % 64]
  else if c < 0x10000 then
    [0xE0 + c / 4096, 0x80 + c / 64 % 64, 0x80 + c % 64]
  else [0xF0 + c / 262144, 0x80 + c / 4096 % 64, 0x80 + c / 64 % 64,
    0x80 + c % 64]

/-- UTF-8 encoding of a scalar-value list (`String::into_bytes`). -/
def utf8Encode (cs : List Nat) : List Nat := cs.flatMap utf8EncodeChar

/-- Is `b` a UTF-8 continuation byte (`0x80..=0xBF`)? -/
def isCont (b : Nat) : Bool := decide (0x80 ≤ b ∧ b < 0xC0)

/-- Valid second byte of a three-byte sequence with lead `b0`
(`E0 → A0..BF`, `ED → 80..9F`, otherwise `80..BF`), as in
`core::str::validations::run_utf8_validation`. -/
def cont2Ok (b0 b1 : Nat) : Bool :=
  if b0 = 0xE0 then decide (0xA0 ≤ b1 ∧ b1 < 0xC0)
  else if b0 = 0xED then decide (0x80 ≤ b1 ∧ b1 < 0xA0)
  else isCont b1

/-- Valid second byte of a four-byte sequence with lead `b0`
(`F0 → 90..BF`, `F4 → 80..8F`, otherwise `80..BF`). -/
def cont3Ok (b0 b1 : Nat) : Bool :=
  if b0 = 0xF0 then decide (0x90 ≤ b1 ∧ b1 < 0xC0)
  else if b0 = 0xF4 then decide (0x80 ≤ b1 ∧ b1 < 0x90)
  else isCont b1

/-- Scalar of a valid two-byte UTF-8 sequence. -/
def scalar2 (b0 b1 : Nat) : Nat := (b0 - 0xC0) * 64 + (b1 - 0x80)

/-- Scalar of a valid three-byte UTF-8 sequence. -/
def scalar3 (b0 b1 b2 : Nat) : Nat :=
  (b0 - 0xE0) * 4096 + (b1 - 0x80) * 64 + (b2 - 0x80)

/-- Scalar of a valid four-byte UTF-8 sequence. -/
def scalar4 (b0 b1 b2 b3 : Nat) : Nat :=
  (b0 - 0xF0) * 262144 + (b1 - 0x80) * 4096 + (b2 - 0x80) * 64 +
    (b3 - 0x80)

/-- `String::from_utf8_lossy` viewed as bytes → scalar values.  Valid
sequences decode to their scalar; each maximal invalid subpart (error
length 1, 2 or 3 following the Rust validator: a bad lead or bad second
byte skips one byte, a bad third byte skips two, a bad fourth byte skips
three) and each incomplete trailing sequence yields one U+FFFD. -/
def utf8DecodeLossy : List Nat → List Nat
  | [] => []
  | [b0] => if b0 < 0x80 then [b0] else [0xFFFD]
  | [b0, b1] =>
      if b0 < 0x80 then b0 :: utf8DecodeLossy [b1]
      else if b0 < 0xC2 then 0xFFFD :: utf8DecodeLossy [b1]
      else if b0 < 0xE0 then
        if isCont b1 then [scalar2 b0 b1] else 0xFFFD :: utf8DecodeLossy [b1]
      else if b0 < 0xF0 then
        if cont2Ok b0 b1 then [0xFFFD] else 0xFFFD :: utf8DecodeLossy [b1]
      else if b0 < 0xF5 then
        if cont3Ok b0 b1 then [0xFFFD] else 0xFFFD :: utf8DecodeLossy [b1]
      else 0xFFFD :: utf8DecodeLossy [b1]
  | [b0, b1, b2] =>
      if b0 < 0x80 then b0 :: utf8DecodeLossy [b1, b2]
      else if b0 < 0xC2 then 0xFFFD :: utf8DecodeLossy [b1, b2]
      else if b0 < 0xE0 then
        if isCont b1 then scalar2 b0 b1 :: utf8DecodeLossy [b2]
        else 0xFFFD :: utf8DecodeLossy [b1, b2]
      else if b0 < 0xF0 then
        if cont2Ok b0 b1 then
          if isCont b2 then [scalar3 b0 b1 b2]
          else 0xFFFD :: utf8DecodeLossy [b2]
        else 0xFFFD :: utf8DecodeLossy [b1, b2]
      else if b0 < 0xF5 then
        if cont3Ok b0 b1 then
          if isCont b2 then [0xFFFD] else 0xFFFD :: utf8DecodeLossy [b2]
        else 0xFFFD :: utf8DecodeLossy [b1, b2]
      else 0xFFFD :: utf8DecodeLossy [b1, b2]
  | b0 :: b1 :: b2 :: b3 :: rest =>
      if b0 < 0x80 then b0 :: utf8DecodeLossy (b1 :: b2 :: b3 :: rest)
      else if b0 < 0xC2 then
        0xFFFD :: utf8DecodeLossy (b1 :: b2 :: b3 :: rest)
      else if b0 < 0xE0 then
        if isCont b1 then scalar2 b0 b1 :: utf8DecodeLossy (b2 :: b3 :: rest)
        else 0xFFFD :: utf8DecodeLossy (b1 :: b2 :: b3 :: rest)
      else if b0 < 0xF0 then
        if cont2Ok b0 b1 then
          if isCont b2 then scalar3 b0 b1 b2 :: utf8DecodeLossy (b3 :: rest)
          else 0xFFFD :: utf8DecodeLossy (b2 :: b3 :: rest)
        else 0xFFFD :: utf8DecodeLossy (b1 :: b2 :: b3 :: rest)
      else if b0 < 0xF5 then
        if cont3Ok b0 b1 then
          if isCont b2 then
            if isCont b3 then scalar4 b0 b1 b2 b3 :: utf8DecodeLossy rest
            else 0xFFFD :: utf8DecodeLossy (b3 :: rest)
          else 0xFFFD :: utf8DecodeLossy (b2 :: b3 :: rest)
        else 0xFFFD :: utf8DecodeLossy (b1 :: b2 :: b3 :: rest)
      else 0xFFFD :: utf8DecodeLossy (b1 :: b2 :: b3 :: rest)

/-- `std::str::from_utf8(bytes).is_ok()`: strict UTF-8 validation with the
same sequence classification as `utf8DecodeLossy`. -/
def validUtf8 : List Nat → Bool
  | [] => true
  | [b0] => decide (b0 < 0x80)
  | [b0, b1] =>
      if b0 < 0x80 then validUtf8 [b1]
      else if 0xC2 ≤ b0 ∧ b0 < 0xE0 then isCont b1
      else false
  | [b0, b1, b2] =>
      if b0 < 0x80 then validUtf8 [b1, b2]
      else if 0xC2 ≤ b0 ∧ b0 < 0xE0 then isCont b1 && validUtf8 [b2]
      else if 0xE0 ≤ b0 ∧ b0 < 0xF0 then cont2Ok b0 b1 && isCont b2
      else false
  | b0 :: b1 :: b2 :: b3 :: rest =>
      if b0 < 0x80 then validUtf8 (b1 :: b2 :: b3 :: rest)
      else if 0xC2 ≤ b0 ∧ b0 < 0xE0 then
        isCont b1 && validUtf8 (b2 :: b3 :: rest)
      else if 0xE0 ≤ b0 ∧ b0 < 0xF0 then
        cont2Ok b0 b1 && isCont b2 && validUtf8 (b3 :: rest)
      else if 0xF0 ≤ b0 ∧ b0 < 0xF5 then
        cont3Ok b0 b1 && isCont b2 && isCont b3 && validUtf8 rest
      else false

/-- `str::encode_utf16` on one scalar value: one unit for BMP scalars,
a surrogate pair for supplementary scalars. -/
def utf16EncodeChar (c : Nat) : List Nat :=
  if c < 0x10000 then [c]
  else [0xD800 + (c - 0x10000) / 0x400, 0xDC00 + (c - 0x10000) % 0x400]

/-- `str::encode_utf16` on a scalar-value list. -/
def utf16Encode (cs : List Nat) : List Nat := cs.flatMap utf16EncodeChar

/-- `u16::to_le_bytes`. -/
def unitToLE (u : Nat) : List Nat := [u % 256, u / 256 % 256]

/-- `u16::to_be_bytes`. -/
def unitToBE (u : Nat) : List Nat := [u / 256 % 256, u % 256]

/-- `App::detect_and_decode` (src/app.rs lines 217-252): BOM sniffing in
source order (UTF-16 LE BOM, UTF-16 BE BOM, UTF-8 BOM, valid-UTF-8
heuristic, ANSI fallback), returning the detected encoding and the UTF-8
bytes handed to the editor view. -/
def detect_and_decode (bytes : List Nat) : Encoding × List Nat :=
  if bytes.take 2 = [0xFF, 0xFE] then
    (Encoding.Utf16Le, utf8Encode (utf16DecodeLossy (toUnitsLE (bytes.drop 2))))
  else if bytes.take 2 = [0xFE, 0xFF] then
    (Encoding.Utf16Be, utf8Encode (utf16DecodeLossy (toUnitsBE (bytes.drop 2))))
  else if bytes.take 3 = [0xEF, 0xBB, 0xBF] then
    (Encoding.Utf8, bytes.drop 3)
  else if validUtf8 bytes then (Encoding.Utf8, bytes)
  else (Encoding.Ansi, bytes)

/-- `App::encode_for_disk` (src/app.rs lines 165-187): UTF-8 and ANSI pass
through unchanged; the UTF-16 variants prepend their BOM and re-encode the
lossily-decoded UTF-8 content as 16-bit units in the requested order. -/
def encode_for_disk (e : Encoding) (utf8 : List Nat) : List Nat :=
  match e with
  | Encoding.Utf8 => utf8
  | Encoding.Utf16Le =>
      0xFF :: 0xFE ::
        (utf16Encode (utf8DecodeLossy utf8)).flatMap unitToLE
  | Encoding.Utf16Be =>
      0xFE :: 0xFF ::
        (utf16Encode (utf8DecodeLossy utf8)).flatMap unitToBE
  | Encoding.Ansi => utf8

theorem detect_le (t : List Nat) :
    detect_and_decode (0xFF :: 0xFE :: t)
      = (Encoding.Utf16Le, utf8Encode (utf16DecodeLossy (toUnitsLE t))) := by
  simp [detect_and_decode]

theorem detect_be (t : List Nat) :
    detect_and_decode (0xFE :: 0xFF :: t)
      = (Encoding.Utf16Be, utf8Encode (utf16DecodeLossy (toUnitsBE t))) := by
  simp [detect_and_decode]

theorem detect_bom8 (t : List Nat) :
    detect_and_decode (0xEF :: 0xBB :: 0xBF :: t) = (Encoding.Utf8, t) := by
  simp [detect_and_decode]

theorem detect_heuristic (b : List Nat) (h1 : b.take 2 ≠ [0xFF, 0xFE])
    (h2 : b.take 2 ≠ [0xFE, 0xFF]) (h3 : b.take 3 ≠ [0xEF, 0xBB, 0xBF])
    (hv : validUtf8 b = true) :
    detect_and_decode b = (Encoding.Utf8, b) := by
  simp [detect_and_decode, h1, h2, h3, hv]

theorem detect_fallback (b : List Nat) (h1 : b.take 2 ≠ [0xFF, 0xFE])
    (h2 : b.take 2 ≠ [0xFE, 0xFF]) (h3 : b.take 3 ≠ [0xEF, 0xBB, 0xBF])
    (hv : validUtf8 b = false) :
    detect_and_decode b = (Encoding.Ansi, b) := by
  simp [detect_and_decode, h1, h2, h3, hv]

/-- **C3.** `detect_and_decode` applies its checks first-match-wins: a
leading `FF FE` yields UTF-16 LE with a lossy little-endian decode of the
remaining bytes; a leading `FE FF` the big-endian variant; a leading
`EF BB BF` yields UTF-8 with the marker stripped; otherwise a fully valid
UTF-8 input is returned unchanged as UTF-8; otherwise the bytes are
returned unchanged as ANSI.  The function is total, so every input
produces a result — there is no error case. -/
theorem C3_detect_and_decode_order :
    (∀ t : List Nat, detect_and_decode (0xFF :: 0xFE :: t)
        = (Encoding.Utf16Le, utf8Encode (utf16DecodeLossy (toUnitsLE t))))
    ∧ (∀ t : List Nat, detect_and_decode (0xFE :: 0xFF :: t)
        = (Encoding.Utf16Be, utf8Encode (utf16DecodeLossy (toUnitsBE t))))
    ∧ (∀ t : List Nat, detect_and_decode (0xEF :: 0xBB :: 0xBF :: t)
        = (Encoding.Utf8, t))
    ∧ (∀ b : List Nat, b.take 2 ≠ [0xFF, 0xFE] → b.take 2 ≠ [0xFE, 0xFF] →
        b.take 3 ≠ [0xEF, 0xBB, 0xBF] → validUtf8 b = true →
        detect_and_decode b = (Encoding.Utf8, b))
    ∧ (∀ b : List Nat, b.take 2 ≠ [0xFF, 0xFE] → b.take 2 ≠ [0xFE, 0xFF] →
        b.take 3 ≠ [0xEF, 0xBB, 0xBF] → validUtf8 b = false →
        detect_and_decode b = (Encoding.Ansi, b)) :=
  ⟨detect_le, detect_be, detect_bom8, detect_heuristic, detect_fallback⟩

/-- Witness for C3: evaluates the hypothesis-bearing clauses at concrete
inputs. -/
theorem C3_witness :
    detect_and_decode [0x68, 0x69] = (Encoding.Utf8, [0x68, 0x69])
    ∧ detect_and_decode [0x80, 0x81, 0x82]
        = (Encoding.Ansi, [0x80, 0x81, 0x82]) :=
  ⟨C3_detect_and_decode_order.2.2.2.1 [0x68, 0x69]
      (by decide) (by decide) (by decide) (by decide),
    C3_detect_and_decode_order.2.2.2.2 [0x80, 0x81, 0x82]
      (by decide) (by decide) (by decide) (by decide)⟩

theorem toUnitsLE_dropLast_of_odd :
    (p : List Nat) → p.length % 2 = 1 → toUnitsLE p = toUnitsLE p.dropLast
  | [], h => by simp at h
  | [b], _ => by simp [toUnitsLE]
  | b0 :: b1 :: rest, h => by
      have hr : rest.length % 2 = 1 := by
        simp [List.length_cons] at h
        omega
      have hne : rest ≠ [] := by
        intro he
        rw [he] at hr
        simp at hr
      rw [show (b0 :: b1 :: rest).dropLast = b0 :: b1 :: rest.dropLast by
        simp [List.dropLast_cons₂, List.dropLast_cons_of_ne_nil hne]]
      simp only [toUnitsLE]
      rw [toUnitsLE_dropLast_of_odd rest hr]

theorem toUnitsBE_dropLast_of_odd :
    (p : List Nat) → p.length % 2 = 1 → toUnitsBE p = toUnitsBE p.dropLast
  | [], h => by simp at h
  | [b], _ => by simp [toUnitsBE]
  | b0 :: b1 :: rest, h => by
      have hr : rest.length % 2 = 1 := by
        simp [List.length_cons] at h
        omega
      have hne : rest ≠ [] := by
        intro he
        rw [he] at hr
        simp at hr
      rw [show (b0 :: b1 :: rest).dropLast = b0 :: b1 :: rest.dropLast by
        simp [List.dropLast_cons₂, List.dropLast_cons_of_ne_nil hne]]
      simp only [toUnitsBE]
      rw [toUnitsBE_dropLast_of_odd rest hr]

/-- **C10.** When a UTF-16 BOM is followed by an odd-length payload,
`detect_and_decode` decodes only the maximal even-length prefix of the
payload — the unpaired trailing byte is dropped by `chunks_exact(2)` and
contributes nothing, so the result equals that of the input without its
final byte; in particular `FF FE 68 00 69` and `FF FE 68 00` decode to the
same text. -/
theorem C10_odd_utf16_payload_drops_last_byte (p : List Nat)
    (h : p.length % 2 = 1) :
    detect_and_decode (0xFF :: 0xFE :: p)
      = detect_and_decode (0xFF :: 0xFE :: p.dropLast)
    ∧ detect_and_decode (0xFE :: 0xFF :: p)
      = detect_and_decode (0xFE :: 0xFF :: p.dropLast)
    ∧ detect_and_decode [0xFF, 0xFE, 0x68, 0x00, 0x69]
      = detect_and_decode [0xFF, 0xFE, 0x68, 0x00] := by
  refine ⟨?_, ?_, by decide⟩
  · rw [detect_le p, detect_le p.dropLast, toUnitsLE_dropLast_of_odd p h]
  · rw [detect_be p, detect_be p.dropLast, toUnitsBE_dropLast_of_odd p h]

/-- Witness for C10: odd payload `68 00 69`. -/
theorem C10_witness :
    detect_and_decode (0xFF :: 0xFE :: [0x68, 0x00, 0x69])
      = detect_and_decode (0xFF :: 0xFE :: [0x68, 0x00, 0x69].dropLast) :=
  (C10_odd_utf16_payload_drops_last_byte [0x68, 0x00, 0x69] (by decide)).1

/-! ### Round-trip infrastructure for C2 -/

/-- A valid Unicode scalar value: below `0x110000` and not a surrogate. -/
def ValidScalar (c : Nat) : Prop := c < 0x110000 ∧ (c < 0xD800 ∨ 0xE000 ≤ c)

/-- Well-formed UTF-16: every unit is an in-range non-surrogate BMP unit or
the start of a high+low surrogate pair. -/
def wfUtf16 : List Nat → Bool
  | [] => true
  | [u] => decide (u < 0xD800 ∨ (0xE000 ≤ u ∧ u < 0x10000))
  | u :: l :: rest =>
      if u < 0xD800 ∨ (0xE000 ≤ u ∧ u < 0x10000) then wfUtf16 (l :: rest)
      else if 0xD800 ≤ u ∧ u < 0xDC00 ∧ 0xDC00 ≤ l ∧ l < 0xE000 then
        wfUtf16 rest
      else false

theorem utf8DecodeLossy_ascii (b0 : Nat) (rest : List Nat) (h : b0 < 0x80) :
    utf8DecodeLossy (b0 :: rest) = b0 :: utf8DecodeLossy rest := by
  match rest with
  | [] => simp only [utf8DecodeLossy, if_pos h]
  | [x] => simp only [utf8DecodeLossy, if_pos h]
  | [x, y] => simp only [utf8DecodeLossy, if_pos h]
  | x :: y :: z :: t => simp only [utf8DecodeLossy, if_pos h]

theorem utf8DecodeLossy_two (b0 b1 : Nat) (rest : List Nat)
    (h0 : 0xC2 ≤ b0) (h1 : b0 < 0xE0) (hc : isCont b1 = true) :
    utf8DecodeLossy (b0 :: b1 :: rest)
      = scalar2 b0 b1 :: utf8DecodeLossy rest := by
  match rest with
  | [] =>
      simp only [utf8DecodeLossy, if_neg (by omega : ¬b0 < 0x80),
        if_neg (by omega : ¬b0 < 0xC2), if_pos h1, hc, if_pos trivial]
  | [x] =>
      simp only [utf8DecodeLossy, if_neg (by omega : ¬b0 < 0x80),
        if_neg (by omega : ¬b0 < 0xC2), if_pos h1, hc, if_pos trivial]
  | x :: y :: t =>
      simp only [utf8DecodeLossy, if_neg (by omega : ¬b0 < 0x80),
        if_neg (by omega : ¬b0 < 0xC2), if_pos h1, hc, if_pos trivial]

theorem utf8DecodeLossy_three (b0 b1 b2 : Nat) (rest : List Nat)
    (h0 : 0xE0 ≤ b0) (h1 : b0 < 0xF0) (hc1 : cont2Ok b0 b1 = true)
    (hc2 : isCont b2 = true) :
    utf8DecodeLossy (b0 :: b1 :: b2 :: rest)
      = scalar3 b0 b1 b2 :: utf8DecodeLossy rest := by
  match rest with
  | [] =>
      simp only [utf8DecodeLossy, if_neg (by omega : ¬b0 < 0x80),
        if_neg (by omega : ¬b0 < 0xC2), if_neg (by omega : ¬b0 < 0xE0),
        if_pos h1, hc1, hc2, if_pos trivial]
  | x :: t =>
      simp only [utf8DecodeLossy, if_neg (by omega : ¬b0 < 0x80),
        if_neg (by omega : ¬b0 < 0xC2), if_neg (by omega : ¬b0 < 0xE0),
        if_pos h1, hc1, hc2, if_pos trivial]

theorem utf8DecodeLossy_four (b0 b1 b2 b3 : Nat) (rest : List Nat)
    (h0 : 0xF0 ≤ b0) (h1 : b0 < 0xF5) (hc1 : cont3Ok b0 b1 = true)
    (hc2 : isCont b2 = true) (hc3 : isCont b3 = true) :
    utf8DecodeLossy (b0 :: b1 :: b2 :: b3 :: rest)
      = scalar4 b0 b1 b2 b3 :: utf8DecodeLossy rest := by
  simp only [utf8DecodeLossy, if_neg (by omega : ¬b0 < 0x80),
    if_neg (by omega : ¬b0 < 0xC2), if_neg (by omega : ¬b0 < 0xE0),
    if_neg (by omega : ¬b0 < 0xF0), if_pos h1, hc1, hc2, hc3,
    if_pos trivial]

/-- Decoding inverts encoding one scalar at a time, for valid scalars. -/
theorem utf8_decode_encodeChar (c : Nat) (rest : List Nat)
    (h : ValidScalar c) :
    utf8DecodeLossy (utf8EncodeChar c ++ rest) = c :: utf8DecodeLossy rest := by
  rcases h with ⟨hlt, hsur⟩
  by_cases h1 : c < 0x80
  · simp only [utf8EncodeChar, if_pos h1, List.cons_append, List.nil_append]
    exact utf8DecodeLossy_ascii c rest h1
  · by_cases h2 : c < 0x800
    · simp only [utf8EncodeChar, if_neg h1, if_pos h2, List.cons_append,
        List.nil_append]
      rw [utf8DecodeLossy_two (0xC0 + c / 64) (0x80 + c % 64) rest
        (by omega) (by omega)
        (by simp only [isCont, decide_eq_true_eq]; omega)]
      congr 1
      simp only [scalar2]
      omega
    · by_cases h3 : c < 0x10000
      · simp only [utf8EncodeChar, if_neg h1, if_neg h2, if_pos h3,
          List.cons_append, List.nil_append]
        rw [utf8DecodeLossy_three (0xE0 + c / 4096) (0x80 + c / 64 % 64)
          (0x80 + c % 64) rest (by omega) (by omega)
          (by
            simp only [cont2Ok, isCont]
            split_ifs <;> simp only [decide_eq_true_eq] <;> omega)
          (by simp only [isCont, decide_eq_true_eq]; omega)]
        congr 1
        simp only [scalar3]
        omega
      · simp only [utf8EncodeChar, if_neg h1, if_neg h2, if_neg h3,
          List.cons_append, List.nil_append]
        rw [utf8DecodeLossy_four (0xF0 + c / 262144) (0x80 + c / 4096 % 64)
          (0x80 + c / 64 % 64) (0x80 + c % 64) rest (by omega) (by omega)
          (by
            simp only [cont3Ok, isCont]
            split_ifs <;> simp only [decide_eq_true_eq] <;> omega)
          (by simp only [isCont, decide_eq_true_eq]; omega)
          (by simp only [isCont, decide_eq_true_eq]; omega)]
        congr 1
        simp only [scalar4]
        omega

theorem utf8_decode_encode (cs : List Nat)
    (h : ∀ c ∈ cs, ValidScalar c) :
    utf8DecodeLossy (utf8Encode cs) = cs := by
  induction cs with
  | nil => rfl
  | cons c rest ih =>
      rw [show utf8Encode (c :: rest) = utf8EncodeChar c ++ utf8Encode rest
          from List.flatMap_cons .. ,
        utf8_decode_encodeChar c (utf8Encode rest) (h c (List.mem_cons_self c rest)),
        ih (fun x hx => h x (List.mem_cons_of_mem c hx))]

theorem utf16DecodeLossy_valid :
    (us : List Nat) → wfUtf16 us = true →
      ∀ c ∈ utf16DecodeLossy us, ValidScalar c
  | [], _, c, hc => by simp [utf16DecodeLossy] at hc
  | [u], h, c, hc => by
      simp only [wfUtf16, decide_eq_true_eq] at h
      simp only [utf16DecodeLossy, if_pos (by omega : u < 0xD800 ∨ 0xE000 ≤ u),
        List.mem_singleton] at hc
      subst hc
      simp only [ValidScalar]
      omega
  | u :: l :: rest, h, c, hc => by
      simp only [wfUtf16] at h
      by_cases h1 : u < 0xD800 ∨ (0xE000 ≤ u ∧ u < 0x10000)
      · rw [if_pos h1] at h
        simp only [utf16DecodeLossy,
          if_pos (by omega : u < 0xD800 ∨ 0xE000 ≤ u), List.mem_cons] at hc
        rcases hc with hc | hc
        · subst hc; simp only [ValidScalar]; omega
        · exact utf16DecodeLossy_valid (l :: rest) h c hc
      · rw [if_neg h1] at h
        by_cases h2 : 0xD800 ≤ u ∧ u < 0xDC00 ∧ 0xDC00 ≤ l ∧ l < 0xE000
        · rw [if_pos h2] at h
          simp only [utf16DecodeLossy,
            if_neg (by omega : ¬(u < 0xD800 ∨ 0xE000 ≤ u)),
            if_pos (show u < 0xDC00 ∧ 0xDC00 ≤ l ∧ l < 0xE000 by omega),
            List.mem_cons] at hc
          rcases hc with hc | hc
          · constructor
            · omega
            · omega
          · exact utf16DecodeLossy_valid rest h c hc
        · rw [if_neg h2] at h
          exact absurd h (by simp)
termination_by us _ _ _ => us.length
decreasing_by all_goals (simp; try omega)

theorem utf16_encode_decode :
    (us : List Nat) → wfUtf16 us = true →
      utf16Encode (utf16DecodeLossy us) = us
  | [], _ => rfl
  | [u], h => by
      simp only [wfUtf16, decide_eq_true_eq] at h
      simp only [utf16DecodeLossy, if_pos (by omega : u < 0xD800 ∨ 0xE000 ≤ u),
        utf16Encode, List.flatMap_cons, List.flatMap_nil, utf16EncodeChar,
        if_pos (by omega : u < 0x10000), List.append_nil]
  | u :: l :: rest, h => by
      simp only [wfUtf16] at h
      by_cases h1 : u < 0xD800 ∨ (0xE000 ≤ u ∧ u < 0x10000)
      · rw [if_pos h1] at h
        simp only [utf16DecodeLossy,
          if_pos (by omega : u < 0xD800 ∨ 0xE000 ≤ u)]
        rw [show utf16Encode (u :: utf16DecodeLossy (l :: rest))
            = utf16EncodeChar u ++ utf16Encode (utf16DecodeLossy (l :: rest))
            from List.flatMap_cons .. ,
          utf16_encode_decode (l :: rest) h]
        simp [utf16EncodeChar, if_pos (by omega : u < 0x10000)]
      · rw [if_neg h1] at h
        by_cases h2 : 0xD800 ≤ u ∧ u < 0xDC00 ∧ 0xDC00 ≤ l ∧ l < 0xE000
        · rw [if_pos h2] at h
          simp only [utf16DecodeLossy,
            if_neg (by omega : ¬(u < 0xD800 ∨ 0xE000 ≤ u)),
            if_pos (show u < 0xDC00 ∧ 0xDC00 ≤ l ∧ l < 0xE000 by omega)]
          rw [show ∀ x xs, utf16Encode (x :: xs)
              = utf16EncodeChar x ++ utf16Encode xs
              from fun x xs => List.flatMap_cons .. ,
            utf16_encode_decode rest h]
          have hc : ¬(0x10000 + (u - 0xD800) * 0x400 + (l - 0xDC00)
              < 0x10000) := by omega
          simp only [utf16EncodeChar, if_neg hc, List.cons_append,
            List.nil_append, List.cons.injEq]
          refine ⟨by omega, by omega, trivial⟩
        · rw [if_neg h2] at h
          exact absurd h (by simp)
termination_by us _ => us.length
decreasing_by all_goals (simp; try omega)

theorem toUnitsLE_flatMap :
    (p : List Nat) → p.length % 2 = 0 → (∀ b ∈ p, b < 256) →
      (toUnitsLE p).flatMap unitToLE = p
  | [], _, _ => rfl
  | [b], h, _ => by simp at h
  | b0 :: b1 :: rest, h, hb => by
      have h0 : b0 < 256 := hb b0 (by simp)
      have h1 : b1 < 256 := hb b1 (by simp)
      simp only [toUnitsLE, List.flatMap_cons, unitToLE]
      rw [toUnitsLE_flatMap rest (by simp at h; omega)
        (fun x hx => hb x (by simp [hx]))]
      simp only [List.cons_append, List.nil_append, List.cons.injEq]
      refine ⟨by omega, by omega, trivial⟩

theorem toUnitsBE_flatMap :
    (p : List Nat) → p.length % 2 = 0 → (∀ b ∈ p, b < 256) →
      (toUnitsBE p).flatMap unitToBE = p
  | [], _, _ => rfl
  | [b], h, _ => by simp at h
  | b0 :: b1 :: rest, h, hb => by
      have h0 : b0 < 256 := hb b0 (by simp)
      have h1 : b1 < 256 := hb b1 (by simp)
      simp only [toUnitsBE, List.flatMap_cons, unitToBE]
      rw [toUnitsBE_flatMap rest (by simp at h; omega)
        (fun x hx => hb x (by simp [hx]))]
      simp only [List.cons_append, List.nil_append, List.cons.injEq]
      refine ⟨by omega, by omega, trivial⟩

/-- **C2 (counterexample).** The claim "the round-trip equation holds for
every `b` detected as Utf8" fails at `b = EF BB BF` (a bare UTF-8 BOM):
detection strips the marker, but `encode_for_disk` for Utf8 is passthrough
and does not restore it. -/
theorem C2_counterexample :
    (detect_and_decode [0xEF, 0xBB, 0xBF]).1 = Encoding.Utf8
    ∧ encode_for_disk (detect_and_decode [0xEF, 0xBB, 0xBF]).1
        (detect_and_decode [0xEF, 0xBB, 0xBF]).2 ≠ [0xEF, 0xBB, 0xBF] := by
  constructor
  · decide
  · decide

/-- **C2 (amended).** `encode_for_disk (detect_and_decode b).1
(detect_and_decode b).2 = b` holds (1) for every `b` without a BOM — that
is, every `b` detected as Ansi, and every `b` detected as Utf8 through the
valid-UTF-8 heuristic rather than through BOM stripping — and (2,3) for
every UTF-16 LE/BE input whose payload after the BOM has even length,
consists of bytes, and forms a well-formed UTF-16 unit sequence (no
malformed 16-bit sequences).  Inputs detected as Utf8 by stripping a
leading `EF BB BF` are excluded: there the marker is lost. -/
theorem C2_roundtrip_amended :
    (∀ b : List Nat, b.take 2 ≠ [0xFF, 0xFE] → b.take 2 ≠ [0xFE, 0xFF] →
        b.take 3 ≠ [0xEF, 0xBB, 0xBF] →
        encode_for_disk (detect_and_decode b).1 (detect_and_decode b).2 = b)
    ∧ (∀ p : List Nat, p.length % 2 = 0 → (∀ x ∈ p, x < 256) →
        wfUtf16 (toUnitsLE p) = true →
        encode_for_disk (detect_and_decode (0xFF :: 0xFE :: p)).1
          (detect_and_decode (0xFF :: 0xFE :: p)).2 = 0xFF :: 0xFE :: p)
    ∧ (∀ p : List Nat, p.length % 2 = 0 → (∀ x ∈ p, x < 256) →
        wfUtf16 (toUnitsBE p) = true →
        encode_for_disk (detect_and_decode (0xFE :: 0xFF :: p)).1
          (detect_and_decode (0xFE :: 0xFF :: p)).2 = 0xFE :: 0xFF :: p) := by
  refine ⟨fun b h1 h2 h3 => ?_, fun p hlen hbyte hwf => ?_,
    fun p hlen hbyte hwf => ?_⟩
  · by_cases hv : validUtf8 b
    · rw [detect_heuristic b h1 h2 h3 hv]
      rfl
    · rw [detect_fallback b h1 h2 h3 (by simpa using hv)]
      rfl
  · rw [detect_le p]
    show 0xFF :: 0xFE :: (utf16Encode (utf8DecodeLossy
      (utf8Encode (utf16DecodeLossy (toUnitsLE p))))).flatMap unitToLE
      = 0xFF :: 0xFE :: p
    rw [utf8_decode_encode (utf16DecodeLossy (toUnitsLE p))
        (utf16DecodeLossy_valid (toUnitsLE p) hwf),
      utf16_encode_decode (toUnitsLE p) hwf,
      toUnitsLE_flatMap p hlen hbyte]
  · rw [detect_be p]
    show 0xFE :: 0xFF :: (utf16Encode (utf8DecodeLossy
      (utf8Encode (utf16DecodeLossy (toUnitsBE p))))).flatMap unitToBE
      = 0xFE :: 0xFF :: p
    rw [utf8_decode_encode (utf16DecodeLossy (toUnitsBE p))
        (utf16DecodeLossy_valid (toUnitsBE p) hwf),
      utf16_encode_decode (toUnitsBE p) hwf,
      toUnitsBE_flatMap p hlen hbyte]

/-- Witness for the amended C2: round trips at concrete inputs for the
no-BOM clause and for both UTF-16 clauses (the BE payload is a surrogate
pair, exercising supplementary scalars). -/
theorem C2_witness :
    encode_for_disk (detect_and_decode [0x68, 0x69]).1
        (detect_and_decode [0x68, 0x69]).2 = [0x68, 0x69]
    ∧ encode_for_disk (detect_and_decode [0xFF, 0xFE, 0x68, 0x00]).1
        (detect_and_decode [0xFF, 0xFE, 0x68, 0x00]).2
        = [0xFF, 0xFE, 0x68, 0x00]
    ∧ encode_for_disk (detect_and_decode [0xFE, 0xFF, 0xD8, 0x3D, 0xDE, 0x00]).1
        (detect_and_decode [0xFE, 0xFF, 0xD8, 0x3D, 0xDE, 0x00]).2
        = [0xFE, 0xFF, 0xD8, 0x3D, 0xDE, 0x00] :=
  ⟨C2_roundtrip_amended.1 [0x68, 0x69] (by decide) (by decide) (by decide),
    C2_roundtrip_amended.2.1 [0x68, 0x00] (by decide)
      (by decide) (by decide),
    C2_roundtrip_amended.2.2 [0xD8, 0x3D, 0xDE, 0x00] (by decide)
      (by decide) (by decide)⟩

/-! ### Document state and `App::save` (src/app.rs lines 69-162)

`std::fs::write` is an external effect; it is embedded as a function
argument `fs : String → List Nat → Except String Unit` giving the outcome
of writing given bytes to a given path.  `save` also returns the
`(path, bytes)` pair of a successful write so that the write effect is
observable. -/

/-- Per-document state (`DocumentState` in src/app.rs). -/
structure DocumentState where
  path : Option String
  encoding : Encoding
  eol : EolMode
  dirty : Bool
  large_file : Bool
deriving DecidableEq, Repr

/-- `DocumentState::new_untitled`. -/
def DocumentState.new_untitled : DocumentState :=
  { path := none, encoding := Encoding.Utf8, eol := EolMode.Crlf,
    dirty := false, large_file := false }

/-- Top-level application state (`App` in src/app.rs, phase-3 shape:
one document). -/
structure App where
  doc : DocumentState
deriving DecidableEq, Repr

/-- `App::encode_for_disk`: re-encode UTF-8 content to the document's
on-disk encoding (dispatch on `self.doc.encoding`). -/
def App.encodeForDisk (a : App) (utf8 : List Nat) : List Nat :=
  encode_for_disk a.doc.encoding utf8

/-- `App::save` (src/app.rs lines 156-162): encode, attempt the write, and
only on success set `doc.path` and clear `doc.dirty` (the `?` operator
returns the error before any field is assigned). -/
def App.save (a : App) (path : String) (utf8_content : List Nat)
    (fs : String → List Nat → Except String Unit) :
    App × Except String (String × List Nat) :=
  let bytes := a.encodeForDisk utf8_content
  match fs path bytes with
  | Except.error e => (a, Except.error e)
  | Except.ok _ =>
      ({ doc := { a.doc with path := some path, dirty := false } },
        Except.ok (path, bytes))

/-- **C8.** `save(path, utf8_content)` encodes the content with
`encode_for_disk` and writes exactly those bytes to `path`; on success it
sets `doc.path = path` and `doc.dirty = false` and changes nothing else;
on I/O failure the `DocumentState` is left completely unmodified and the
error is returned to the caller. -/
theorem C8_save_contract (a : App) (path : String) (content : List Nat)
    (fs : String → List Nat → Except String Unit) :
    (∀ e, fs path (a.encodeForDisk content) = Except.error e →
      a.save path content fs = (a, Except.error e))
    ∧ (fs path (a.encodeForDisk content) = Except.ok () →
      a.save path content fs =
        ({ doc := { path := some path, encoding := a.doc.encoding,
                    eol := a.doc.eol, dirty := false,
                    large_file := a.doc.large_file } },
          Except.ok (path, a.encodeForDisk content))) := by
  constructor
  · intro e he
    simp [App.save, he]
  · intro hok
    simp [App.save, hok]

/-- Witness for C8: a failing and a succeeding filesystem at a concrete
document. -/
theorem C8_witness :
    (App.save { doc := DocumentState.new_untitled } "a.txt" [0x68]
        (fun _ _ => Except.error "denied")
      = ({ doc := DocumentState.new_untitled }, Except.error "denied"))
    ∧ (App.save { doc := DocumentState.new_untitled } "a.txt" [0x68]
        (fun _ _ => Except.ok ())
      = ({ doc := { path := some "a.txt", encoding := Encoding.Utf8,
                    eol := EolMode.Crlf, dirty := false,
                    large_file := false } },
          Except.ok ("a.txt", [0x68]))) :=
  ⟨(C8_save_contract { doc := DocumentState.new_untitled } "a.txt" [0x68]
      (fun _ _ => Except.error "denied")).1 "denied" rfl,
    (C8_save_contract { doc := DocumentState.new_untitled } "a.txt" [0x68]
      (fun _ _ => Except.ok ())).2 rfl⟩

/-! ### Session persistence (src/session/mod.rs)

`serde_json` values are embedded as a small JSON type (`num` covers the
unsigned integers the session format uses; any other JSON number would
fail `serde` deserialization into `u32`/`usize`/`u8` and is covered by the
parse-failure paths).  `load`'s environment is abstracted: `appdataSet`
models whether the `APPDATA` variable exists, and `file` models
`fs::read` + JSON syntax parsing (`none` = read error, `some none` =
malformed JSON text, `some (some j)` = the parsed value). -/

/-- A JSON value. -/
inductive Json where
  | null
  | bool (b : Bool)
  | num (n : Nat)
  | str (s : String)
  | arr (xs : List Json)
  | obj (fields : List (String × Json))

/-- First value bound to key `k`, as `serde` field lookup. -/
def jsonLookup (fields : List (String × Json)) (k : String) : Option Json :=
  match fields with
  | [] => none
  | (k2, v) :: rest => if k2 = k then some v else jsonLookup rest k

/-- One entry per open tab (`TabEntry` in src/session/mod.rs). -/
structure TabEntry where
  path : Option String
  caret_pos : Nat
  scroll_line : Nat
  encoding : String
  eol : String
deriving DecidableEq, Repr

/-- Root of the JSON session file (`SessionFile` in src/session/mod.rs).
`dark_mode` and `tab_position` carry `#[serde(default)]`. -/
structure SessionFile where
  version : Nat
  tabs : List TabEntry
  active_tab : Nat
  dark_mode : Bool
  tab_position : Nat
deriving DecidableEq, Repr

/-- Deserialize a `u32`/`usize`/`u8` field. -/
def jsonNat : Json → Option Nat
  | Json.num n => some n
  | _ => none

/-- Deserialize a `bool` field. -/
def jsonBool : Json → Option Bool
  | Json.bool b => some b
  | _ => none

/-- Deserialize a `String` field. -/
def jsonString : Json → Option String
  | Json.str s => some s
  | _ => none

/-- Deserialize an `Option<String>` field value (`null` ↦ `None`). -/
def jsonOptString : Json → Option (Option String)
  | Json.null => some none
  | Json.str s => some (some s)
  | _ => none

/-- `serde` deserialization of `TabEntry`: `path` is an `Option` field and
may be absent (↦ `None`); the others are required. -/
def parseTabEntry : Json → Option TabEntry
  | Json.obj fields => do
      let path ← match jsonLookup fields "path" with
        | none => some none
        | some v => jsonOptString v
      let caret ← (jsonLookup fields "caret_pos").bind jsonNat
      let scroll ← (jsonLookup fields "scroll_line").bind jsonNat
      let enc ← (jsonLookup fields "encoding").bind jsonString
      let eol ← (jsonLookup fields "eol").bind jsonString
      some { path := path, caret_pos := caret, scroll_line := scroll,
             encoding := enc, eol := eol }
  | _ => none

/-- Deserialize each element of a JSON array. -/
def parseTabs : List Json → Option (List TabEntry)
  | [] => some []
  | j :: rest => do
      let t ← parseTabEntry j
      let ts ← parseTabs rest
      some (t :: ts)

/-- `serde` deserialization of `SessionFile`: `version`, `tabs` and
`active_tab` are required; `dark_mode` defaults to `false` and
`tab_position` to `0` when absent (`#[serde(default)]`), while a present
field of the wrong type is an error. -/
def parseSessionFile : Json → Option SessionFile
  | Json.obj fields => do
      let version ← (jsonLookup fields "version").bind jsonNat
      let tabs ← match jsonLookup fields "tabs" with
        | some (Json.arr xs) => parseTabs xs
        | _ => none
      let active ← (jsonLookup fields "active_tab").bind jsonNat
      let dark ← match jsonLookup fields "dark_mode" with
        | none => some false
        | some v => jsonBool v
      let tabpos ← match jsonLookup fields "tab_position" with
        | none => some (0 : Nat)
        | some v => jsonNat v
      some { version := version, tabs := tabs, active_tab := active,
             dark_mode := dark, tab_position := tabpos }
  | _ => none

/-- `SESSION_VERSION` in src/session/mod.rs. -/
def SESSION_VERSION : Nat := 1

/-- `load` (src/session/mod.rs lines 94-102): `None` when `APPDATA` is
unset, the file cannot be read, the data does not parse, or the version
differs from `SESSION_VERSION`. -/
def load (appdataSet : Bool) (file : Option (Option Json)) :
    Option SessionFile :=
  if appdataSet = false then none
  else
    match file with
    | none => none
    | some none => none
    | some (some j) =>
        match parseSessionFile j with
        | none => none
        | some sf => if sf.version ≠ SESSION_VERSION then none else some sf

/-- The spec's example of an old snapshot with no `dark_mode` field:
`{"version":1,"tabs":[],"active_tab":0}`. -/
def oldSnapshotJson : Json :=
  Json.obj [("version", Json.num 1), ("tabs", Json.arr []),
    ("active_tab", Json.num 0)]

/-- **C9.** `load` returns `None` on any failure — unset `APPDATA`, a file
that cannot be read, data that does not parse, or a version different from
`SESSION_VERSION` — and never partially recovers; and a stored snapshot in
which the `dark_mode` field is absent still loads successfully, with
`dark_mode = false`. -/
theorem C9_load_fail_closed_and_dark_mode_default :
    (∀ file, load false file = none)
    ∧ (∀ b, load b none = none)
    ∧ (∀ b, load b (some none) = none)
    ∧ (∀ b j, parseSessionFile j = none → load b (some (some j)) = none)
    ∧ (∀ b j sf, parseSessionFile j = some sf →
        sf.version ≠ SESSION_VERSION → load b (some (some j)) = none)
    ∧ (load true (some (some oldSnapshotJson)) =
        some { version := 1, tabs := [], active_tab := 0,
               dark_mode := false, tab_position := 0 }) := by
  refine ⟨fun file => rfl, fun b => ?_, fun b => ?_,
    fun b j hp => ?_, fun b j sf hp hv => ?_, ?_⟩
  · cases b <;> rfl
  · cases b <;> rfl
  · cases b <;> simp [load, hp]
  · cases b <;> simp [load, hp, hv]
  · rfl

/-- Witness for C9: a non-object JSON value fails to parse, and a
version-99 snapshot is rejected. -/
theorem C9_witness :
    load true (some (some (Json.num 5))) = none
    ∧ load true (some (some (Json.obj [("version", Json.num 99),
        ("tabs", Json.arr []), ("active_tab", Json.num 0)]))) = none :=
  ⟨C9_load_fail_closed_and_dark_mode_default.2.2.2.1 true (Json.num 5) rfl,
    C9_load_fail_closed_and_dark_mode_default.2.2.2.2.1 true
      (Json.obj [("version", Json.num 99), ("tabs", Json.arr []),
        ("active_tab", Json.num 0)])
      { version := 99, tabs := [], active_tab := 0, dark_mode := false,
        tab_position := 0 }
      (by rfl) (by decide)⟩

/-! ### Editor-view state and the search driver
(src/editor/scintilla/mod.rs lines 386-579, src/platform/win32/window.rs
lines 1716-1738)

`ScintillaView` wraps an external editor control.  Modelled from the spec:
the EditorView capability of spec §6 (`set_target_range`,
`search_in_target`, `replace_target`, `selection_start/end`, `set_selection`,
`begin/end_undo_group`, document text and length) is embedded as a record
of the document bytes, the anchor/caret selection, the target range, a
scrolled flag and undo-group bookkeeping.  `search_in_target` implements
plain text search; a reversed target (`start > end`) searches backward
(last match), per the spec's "a reversed range signals backward search".
Search flags do not change the modelled engine and are carried opaquely.
On a hit the target is moved to the match extent; `replace_target`
splices the replacement over the target and adjusts selection endpoints
the way an editor adjusts positions across an edit. -/

structure ViewState where
  text : List Nat
  selAnchor : Nat
  selCaret : Nat
  targetStart : Nat
  targetEnd : Nat
  caretScrolled : Bool
  undoDepth : Nat
  undoGroups : Nat
deriving DecidableEq, Repr

/-- A fresh view holding `text` with the caret at the origin. -/
def mkView (text : List Nat) : ViewState :=
  { text := text, selAnchor := 0, selCaret := 0, targetStart := 0,
    targetEnd := 0, caretScrolled := false, undoDepth := 0, undoGroups := 0 }

/-- `ScintillaView::doc_len` (`SCI_GETLENGTH`). -/
def ViewState.docLen (st : ViewState) : Nat := st.text.length

/-- `ScintillaView::selection_start` (`SCI_GETSELECTIONSTART`): the lower
end of the selection. -/
def ViewState.selectionStart (st : ViewState) : Nat :=
  min st.selAnchor st.selCaret

/-- `ScintillaView::selection_end` (`SCI_GETSELECTIONEND`). -/
def ViewState.selectionEnd (st : ViewState) : Nat :=
  max st.selAnchor st.selCaret

/-- `ScintillaView::set_target` (`SCI_SETTARGETSTART/END`). -/
def ViewState.setTarget (st : ViewState) (s e : Nat) : ViewState :=
  { st with targetStart := s, targetEnd := e }

/-- Does `needle` occur in `text` starting at byte offset `p`? -/
def matchAt (text needle : List Nat) (p : Nat) : Bool :=
  decide ((text.drop p).take needle.length = needle)

/-- All positions in `[lo, hi)` at which `needle` matches wholly inside
the range, in increasing order. -/
def occurrencesIn (text needle : List Nat) (lo hi : Nat) : List Nat :=
  (List.range (text.length + 1)).filter
    (fun p => decide (lo ≤ p) && decide (p + needle.length ≤ hi) &&
      matchAt text needle p)

/-- `ScintillaView::search_in_target` (`SCI_SEARCHINTARGET`): plain text
search inside the target; a reversed target searches backward and yields
the last match.  On a hit the target becomes the match extent. -/
def ViewState.searchInTarget (st : ViewState) (needle : List Nat)
    (_flags : Nat) : Option Nat × ViewState :=
  if st.targetStart ≤ st.targetEnd then
    match (occurrencesIn st.text needle st.targetStart st.targetEnd).head? with
    | none => (none, st)
    | some p =>
        (some p, { st with targetStart := p, targetEnd := p + needle.length })
  else
    match (occurrencesIn st.text needle st.targetEnd st.targetStart).getLast? with
    | none => (none, st)
    | some p =>
        (some p, { st with targetStart := p, targetEnd := p + needle.length })

/-- `ScintillaView::get_target_end` (`SCI_GETTARGETEND`). -/
def ViewState.getTargetEnd (st : ViewState) : Nat := st.targetEnd

/-- Position adjustment across replacing `[s, e)` by `len` new bytes:
positions before the edit keep their place, positions after it shift by
the length difference, positions inside collapse to the edit start. -/
def adjustPos (p s e len : Nat) : Nat :=
  if p ≤ s then p else if e ≤ p then p - e + s + len else s

/-- `ScintillaView::replace_target` (`SCI_REPLACETARGET`): splice `repl`
over the target range, move the target to the replacement, adjust the
selection endpoints, and return the replacement length. -/
def ViewState.replaceTarget (st : ViewState) (repl : List Nat) :
    Nat × ViewState :=
  let s := min st.targetStart st.targetEnd
  let e := min (max st.targetStart st.targetEnd) st.text.length
  (repl.length,
    { st with
      text := st.text.take s ++ repl ++ st.text.drop e,
      selAnchor := adjustPos st.selAnchor s e repl.length,
      selCaret := adjustPos st.selCaret s e repl.length,
      targetStart := s, targetEnd := s + repl.length })

/-- `ScintillaView::set_sel` (`SCI_SETSEL`). -/
def ViewState.setSel (st : ViewState) (anchor caret : Nat) : ViewState :=
  { st with selAnchor := anchor, selCaret := caret }

/-- `ScintillaView::scroll_caret` (`SCI_SCROLLCARET`), recorded as a flag. -/
def ViewState.scrollCaret (st : ViewState) : ViewState :=
  { st with caretScrolled := true }

/-- `ScintillaView::begin_undo_action`: opening a top-level group counts a
new undo transaction. -/
def ViewState.beginUndoAction (st : ViewState) : ViewState :=
  { st with
    undoDepth := st.undoDepth + 1,
    undoGroups := if st.undoDepth = 0 then st.undoGroups + 1
      else st.undoGroups }

/-- `ScintillaView::end_undo_action`. -/
def ViewState.endUndoAction (st : ViewState) : ViewState :=
  { st with undoDepth := st.undoDepth - 1 }

/-- `ScintillaView::find_next` (src/editor/scintilla/mod.rs lines 508-556),
transcribed statement by statement: forward searches
`[selection_end, doc_len)` then wraps to `[0, selection_start)`; backward
searches the reversed `[selection_start, 0)` then wraps to the reversed
`[doc_len, selection_end)`; a hit selects the match extent and scrolls the
caret into view. -/
def find_next (st : ViewState) (needle : List Nat) (flags : Nat)
    (forward : Bool) : Bool × ViewState :=
  let doc_len := st.docLen
  let sel_start := st.selectionStart
  let sel_end := st.selectionEnd
  if forward then
    let st1 := st.setTarget sel_end doc_len
    match st1.searchInTarget needle flags with
    | (some pos, st2) =>
        (true, ((st2.setSel pos st2.getTargetEnd).scrollCaret))
    | (none, st2) =>
        if sel_start > 0 then
          let st3 := st2.setTarget 0 sel_start
          match st3.searchInTarget needle flags with
          | (some pos, st4) =>
              (true, ((st4.setSel pos st4.getTargetEnd).scrollCaret))
          | (none, st4) => (false, st4)
        else (false, st2)
  else
    if sel_start > 0 then
      let st1 := st.setTarget sel_start 0
      match st1.searchInTarget needle flags with
      | (some pos, st2) =>
          (true, ((st2.setSel pos st2.getTargetEnd).scrollCaret))
      | (none, st2) =>
          if sel_end < doc_len then
            let st3 := st2.setTarget doc_len sel_end
            match st3.searchInTarget needle flags with
            | (some pos, st4) =>
                (true, ((st4.setSel pos st4.getTargetEnd).scrollCaret))
            | (none, st4) => (false, st4)
          else (false, st2)
    else
      if sel_end < doc_len then
        let st3 := st.setTarget doc_len sel_end
        match st3.searchInTarget needle flags with
        | (some pos, st4) =>
            (true, ((st4.setSel pos st4.getTargetEnd).scrollCaret))
        | (none, st4) => (false, st4)
      else (false, st)

/-- The loop of `ScintillaView::replace_all` (src/editor/scintilla/mod.rs
lines 565-576): each iteration re-reads the document length, sets the
target to `[pos, doc_len)`, searches, and on a hit replaces the match and
advances `pos` to match start + replacement length.  `fuel` bounds the
iteration count so that the (unreachable for a nonempty needle) divergent
loop is modelled as `none`. -/
def replaceAllGo : Nat → ViewState → List Nat → List Nat → Nat → Nat →
    Nat → Option (Nat × ViewState)
  | 0, _, _, _, _, _, _ => none
  | fuel + 1, st, fnd, repl, flags, pos, count =>
      let doc_len := st.docLen
      let st1 := st.setTarget pos doc_len
      match st1.searchInTarget fnd flags with
      | (none, st2) => some (count, st2)
      | (some m, st2) =>
          let r := st2.replaceTarget repl
          replaceAllGo fuel r.2 fnd repl flags (m + r.1) (count + 1)

/-- `ScintillaView::replace_all` (src/editor/scintilla/mod.rs lines
561-579): one undo action around the whole loop; returns the number of
replacements. -/
def replace_all (st : ViewState) (fnd repl : List Nat) (flags : Nat) :
    Option (Nat × ViewState) :=
  let st0 := st.beginUndoAction
  match replaceAllGo (st0.text.length + 1) st0 fnd repl flags 0 0 with
  | none => none
  | some (c, st1) => some (c, st1.endUndoAction)

/-- Reference recursion for `replace_all`, over bare text: find the first
occurrence at or after `pos`, splice in the replacement, continue after
it; the document length is that of the current (already edited) text. -/
def replaceAllSpecGo : Nat → List Nat → List Nat → List Nat → Nat → Nat →
    Option (Nat × List Nat)
  | 0, _, _, _, _, _ => none
  | fuel + 1, text, fnd, repl, pos, count =>
      match (occurrencesIn text fnd pos text.length).head? with
      | none => some (count, text)
      | some m =>
          replaceAllSpecGo fuel
            (text.take m ++ repl ++ text.drop (m + fnd.length)) fnd repl
            (m + repl.length) (count + 1)

/-- `handle_replace_once` (src/platform/win32/window.rs lines 1716-1738):
when the selection is nonempty, re-run the search restricted to the
selection bounds and, if it hits anywhere inside them, replace the found
target; then always advance with one `find_next`. -/
def handle_replace_once (st : ViewState) (fnd repl : List Nat)
    (flags : Nat) (forward : Bool) : Bool × ViewState :=
  let sel_start := st.selectionStart
  let sel_end := st.selectionEnd
  let st1 :=
    if sel_end > sel_start then
      let stT := st.setTarget sel_start sel_end
      match stT.searchInTarget fnd flags with
      | (some _, st2) => (st2.replaceTarget repl).2
      | (none, st2) => st2
    else st
  find_next st1 fnd flags forward

/-- **C5 (code evaluation at the failing input).**  With the document
`"xcatx"`, the whole text selected (anchor 0, caret 5), needle `"cat"` and
replacement `"dog"`: the selection content `"xcatx"` is not a match of the
needle, yet `handle_replace_once` performs a replacement — the search
re-run inside the selection bounds is only checked for `is_some`, so the
embedded match `"cat"` is replaced and the text becomes `"xdogx"`.  Under
the claim (replace only when the selection exactly equals a match) the
text would have been left unchanged. -/
theorem C5_replace_once_replaces_inside_selection :
    (({ mkView [120, 99, 97, 116, 120] with
        selCaret := 5 } : ViewState).text.take 5 ≠ [99, 97, 116])
    ∧ (handle_replace_once
        { mkView [120, 99, 97, 116, 120] with selCaret := 5 }
        [99, 97, 116] [100, 111, 103] 0 true).2.text
        = [120, 100, 111, 103, 120]
    ∧ (handle_replace_once
        { mkView [120, 99, 97, 116, 120] with selCaret := 5 }
        [99, 97, 116] [100, 111, 103] 0 true).2.text
        ≠ [120, 99, 97, 116, 120] := by
  refine ⟨by decide, by decide, by decide⟩

theorem matchAt_false_of_ge (text fnd : List Nat) (p : Nat)
    (hk : fnd ≠ []) (hp : text.length ≤ p) : matchAt text fnd p = false := by
  simp only [matchAt, decide_eq_false_iff_not]
  rw [List.drop_eq_nil_of_le hp]
  simp only [List.take_nil]
  exact fun e => hk e.symm

theorem occ_empty_of_hi_le_lo (text fnd : List Nat) (lo hi : Nat)
    (hk : fnd ≠ []) (h : hi ≤ lo) : occurrencesIn text fnd lo hi = [] := by
  have hkpos : 0 < fnd.length := List.length_pos.mpr hk
  simp only [occurrencesIn, List.filter_eq_nil_iff]
  intro p _
  simp only [Bool.and_eq_true, decide_eq_true_eq, not_and]
  intro hlo hhi
  omega

theorem occ_mem_spec (text fnd : List Nat) (lo hi m : Nat)
    (hm : m ∈ occurrencesIn text fnd lo hi) :
    lo ≤ m ∧ m + fnd.length ≤ hi ∧ matchAt text fnd m = true := by
  simp only [occurrencesIn, List.mem_filter, Bool.and_eq_true,
    decide_eq_true_eq] at hm
  exact ⟨hm.2.1.1, hm.2.1.2, hm.2.2⟩

theorem occ_empty_of_lo_ge_len (text fnd : List Nat) (lo hi : Nat)
    (hk : fnd ≠ []) (h : text.length ≤ lo) :
    occurrencesIn text fnd lo hi = [] := by
  simp only [occurrencesIn, List.filter_eq_nil_iff]
  intro p _ hall
  simp only [Bool.and_eq_true, decide_eq_true_eq] at hall
  obtain ⟨⟨hlo, hhi⟩, hmt⟩ := hall
  rw [matchAt_false_of_ge text fnd p hk (by omega)] at hmt
  exact Bool.false_ne_true hmt

/-- The `replace_all` loop projects onto the bare-text reference recursion:
with the same fuel, the embedded loop and the specification recursion
return `none` together or return the same count and the same final text. -/
theorem replaceAllGo_proj (fnd repl : List Nat) (flags : Nat)
    (hk : fnd ≠ []) :
    ∀ (fuel : Nat) (st : ViewState) (pos count : Nat),
      (replaceAllGo fuel st fnd repl flags pos count).map
          (fun r => (r.1, r.2.text))
        = replaceAllSpecGo fuel st.text fnd repl pos count := by
  intro fuel
  induction fuel with
  | zero => intro st pos count; rfl
  | succ fuel ih =>
      intro st pos count
      by_cases hp : pos ≤ st.text.length
      · cases hocc : (occurrencesIn st.text fnd pos st.text.length).head? with
        | none =>
            simp only [replaceAllGo, replaceAllSpecGo, ViewState.docLen,
              ViewState.setTarget, ViewState.searchInTarget, if_pos hp, hocc,
              Option.map_some]
            rfl
        | some m =>
            have hmem := occ_mem_spec st.text fnd pos st.text.length m
              (List.mem_of_mem_head? (by rw [hocc]; exact rfl))
            simp only [replaceAllGo, replaceAllSpecGo, ViewState.docLen,
              ViewState.setTarget, ViewState.searchInTarget, if_pos hp, hocc,
              ViewState.replaceTarget]
            rw [show min m (m + fnd.length) = m by omega,
              show min (max m (m + fnd.length)) st.text.length
                = m + fnd.length by omega]
            exact ih _ (m + repl.length) (count + 1)
      · have hemb : occurrencesIn st.text fnd st.text.length pos = [] :=
          occ_empty_of_lo_ge_len st.text fnd st.text.length pos hk (by omega)
        have hspec : occurrencesIn st.text fnd pos st.text.length = [] :=
          occ_empty_of_hi_le_lo st.text fnd pos st.text.length hk (by omega)
        simp only [replaceAllGo, replaceAllSpecGo, ViewState.docLen,
          ViewState.setTarget, ViewState.searchInTarget, if_neg hp, hemb,
          hspec, List.getLast?_nil, List.head?_nil, Option.map_some]
        rfl

/-- `search_in_target` changes only the target registers. -/
theorem searchInTarget_frame (st : ViewState) (needle : List Nat)
    (flags : Nat) :
    (st.searchInTarget needle flags).2.undoDepth = st.undoDepth
    ∧ (st.searchInTarget needle flags).2.undoGroups = st.undoGroups
    ∧ (st.searchInTarget needle flags).2.text = st.text
    ∧ (st.searchInTarget needle flags).2.selAnchor = st.selAnchor
    ∧ (st.searchInTarget needle flags).2.selCaret = st.selCaret
    ∧ (st.searchInTarget needle flags).2.caretScrolled = st.caretScrolled := by
  refine ⟨?_, ?_, ?_, ?_, ?_, ?_⟩ <;>
    (unfold ViewState.searchInTarget; split <;> (split <;> rfl))

/-- The loop leaves the undo bookkeeping untouched. -/
theorem replaceAllGo_undo (fnd repl : List Nat) (flags : Nat) :
    ∀ (fuel : Nat) (st : ViewState) (pos count : Nat) (r : Nat × ViewState),
      replaceAllGo fuel st fnd repl flags pos count = some r →
      r.2.undoDepth = st.undoDepth ∧ r.2.undoGroups = st.undoGroups := by
  intro fuel
  induction fuel with
  | zero => intro st pos count r h; exact absurd h (by simp [replaceAllGo])
  | succ fuel ih =>
      intro st pos count r h
      simp only [replaceAllGo] at h
      rcases hsearch : (st.setTarget pos st.docLen).searchInTarget fnd flags
        with ⟨res, st2⟩
      rw [hsearch] at h
      have hst2 : st2.undoDepth = st.undoDepth ∧
          st2.undoGroups = st.undoGroups := by
        have h1 := (searchInTarget_frame (st.setTarget pos st.docLen)
          fnd flags).1
        have h2 := (searchInTarget_frame (st.setTarget pos st.docLen)
          fnd flags).2.1
        rw [hsearch] at h1 h2
        exact ⟨h1, h2⟩
      cases res with
      | none =>
          simp only at h
          cases h
          exact ⟨hst2.1, hst2.2⟩
      | some m =>
          simp only at h
          have h3 := ih _ _ _ _ h
          refine ⟨?_, ?_⟩
          · rw [h3.1]
            show st2.undoDepth = st.undoDepth
            exact hst2.1
          · rw [h3.2]
            show st2.undoGroups = st.undoGroups
            exact hst2.2

/-- With fuel exceeding `text.length - pos`, the reference recursion
terminates (possible since a nonempty needle strictly shrinks the measure
each round). -/
theorem replaceAllSpecGo_isSome (fnd repl : List Nat) (hk : fnd ≠ []) :
    ∀ (fuel : Nat) (text : List Nat) (pos count : Nat),
      text.length - pos < fuel →
      (replaceAllSpecGo fuel text fnd repl pos count).isSome = true := by
  intro fuel
  induction fuel with
  | zero => intro text pos count h; exact absurd h (Nat.not_lt_zero _)
  | succ fuel ih =>
      intro text pos count h
      simp only [replaceAllSpecGo]
      cases hocc : (occurrencesIn text fnd pos text.length).head? with
      | none => simp
      | some m =>
          have hmem := occ_mem_spec text fnd pos text.length m
            (List.mem_of_mem_head? (by rw [hocc]; exact rfl))
          have hkpos : 0 < fnd.length := List.length_pos.mpr hk
          apply ih
          have hlen : (text.take m ++ repl ++
              text.drop (m + fnd.length)).length
              = m + repl.length + (text.length - (m + fnd.length)) := by
            simp only [List.length_append, List.length_take,
              List.length_drop]
            omega
          rw [hlen]
          omega

/-- **C6.** For a nonempty needle, `replace_all` runs inside a single
grouped-undo transaction (exactly one new top-level undo group is opened
and closed) and its loop — target re-set to `[cursor, current doc length)`
each iteration with the length re-read, cursor advanced to match start +
replacement length, stopping on a miss — computes exactly the bare-text
reference recursion `replaceAllSpecGo`, returning the number of
replacements; in particular on `"cat cat cat"` with needle `"cat"` and
replacement `"dog"` it returns 3 and the text becomes `"dog dog dog"`. -/
theorem C6_replace_all_spec :
    (∀ (st : ViewState) (fnd repl : List Nat) (flags : Nat),
      fnd ≠ [] → st.undoDepth = 0 →
      ∃ c st2, replace_all st fnd repl flags = some (c, st2)
        ∧ replaceAllSpecGo (st.text.length + 1) st.text fnd repl 0 0
            = some (c, st2.text)
        ∧ st2.undoGroups = st.undoGroups + 1
        ∧ st2.undoDepth = 0)
    ∧ ((replace_all (mkView [99, 97, 116, 32, 99, 97, 116, 32, 99, 97, 116])
          [99, 97, 116] [100, 111, 103] 0).map (fun r => (r.1, r.2.text))
        = some (3, [100, 111, 103, 32, 100, 111, 103, 32, 100, 111, 103])) := by
  constructor
  · intro st fnd repl flags hk hdepth
    have hproj := replaceAllGo_proj fnd repl flags hk
      (st.beginUndoAction.text.length + 1) st.beginUndoAction 0 0
    have hsome := replaceAllSpecGo_isSome fnd repl hk
      (st.beginUndoAction.text.length + 1) st.beginUndoAction.text 0 0
      (by omega)
    cases hgo : replaceAllGo (st.beginUndoAction.text.length + 1)
        st.beginUndoAction fnd repl flags 0 0 with
    | none =>
        rw [hgo] at hproj
        simp only [Option.map_none'] at hproj
        rw [← hproj] at hsome
        simp at hsome
    | some r =>
        have hundo := replaceAllGo_undo fnd repl flags _ _ _ _ r hgo
        rw [hgo] at hproj
        simp only [Option.map_some'] at hproj
        refine ⟨r.1, r.2.endUndoAction, ?_, ?_, ?_, ?_⟩
        · simp only [replace_all, hgo]
        · exact hproj.symm
        · have h1 : r.2.endUndoAction.undoGroups
              = st.beginUndoAction.undoGroups := by
            rw [show r.2.endUndoAction.undoGroups = r.2.undoGroups from rfl,
              hundo.2]
          rw [h1]
          show (if st.undoDepth = 0 then st.undoGroups + 1
            else st.undoGroups) = st.undoGroups + 1
          rw [if_pos hdepth]
        · have h1 : r.2.endUndoAction.undoDepth
              = st.beginUndoAction.undoDepth - 1 := by
            rw [show r.2.endUndoAction.undoDepth = r.2.undoDepth - 1 from rfl,
              hundo.1]
          rw [h1]
          show st.undoDepth + 1 - 1 = 0
          omega
  · decide

/-- Witness for C6: the claim's own example, via the general clause. -/
theorem C6_witness :
    ∃ c st2,
      replace_all (mkView [99, 97, 116, 32, 99, 97, 116, 32, 99, 97, 116])
          [99, 97, 116] [100, 111, 103] 0 = some (c, st2)
        ∧ replaceAllSpecGo
            ((mkView [99, 97, 116, 32, 99, 97, 116, 32, 99, 97, 116]).text.length + 1)
            (mkView [99, 97, 116, 32, 99, 97, 116, 32, 99, 97, 116]).text
            [99, 97, 116] [100, 111, 103] 0 0 = some (c, st2.text)
        ∧ st2.undoGroups =
            (mkView [99, 97, 116, 32, 99, 97, 116, 32, 99, 97, 116]).undoGroups + 1
        ∧ st2.undoDepth = 0 :=
  C6_replace_all_spec.1 (mkView [99, 97, 116, 32, 99, 97, 116, 32, 99, 97, 116])
    [99, 97, 116] [100, 111, 103] 0 (by decide) (by decide)

theorem selectionEnd_le_len (st : ViewState)
    (ha : st.selAnchor ≤ st.text.length) (hc : st.selCaret ≤ st.text.length) :
    st.selectionEnd ≤ st.text.length := by
  simp only [ViewState.selectionEnd]
  omega

/-- Forward `find_next` with a hit in the primary range
`[selection_end, doc_len)` selects the first such match. -/
theorem find_next_fwd_hit (st : ViewState) (needle : List Nat) (flags p : Nat)
    (hse : st.selectionEnd ≤ st.text.length)
    (hocc : (occurrencesIn st.text needle st.selectionEnd
      st.text.length).head? = some p) :
    find_next st needle flags true =
      (true,
        { st with
          selAnchor := p, selCaret := p + needle.length,
          targetStart := p, targetEnd := p + needle.length,
          caretScrolled := true }) := by
  simp only [find_next, ViewState.docLen, ViewState.setTarget,
    ViewState.searchInTarget, ViewState.setSel, ViewState.scrollCaret,
    ViewState.getTargetEnd, if_pos hse, hocc, if_pos trivial]

/-- Forward `find_next` with an empty primary range but a wrapped hit in
`[0, selection_start)` selects the first wrapped match. -/
theorem find_next_fwd_wrap_hit (st : ViewState) (needle : List Nat)
    (flags p : Nat) (hk : needle ≠ [])
    (hse : st.selectionEnd ≤ st.text.length)
    (hp : (occurrencesIn st.text needle st.selectionEnd
      st.text.length).head? = none)
    (hw : (occurrencesIn st.text needle 0 st.selectionStart).head? = some p) :
    find_next st needle flags true =
      (true,
        { st with
          selAnchor := p, selCaret := p + needle.length,
          targetStart := p, targetEnd := p + needle.length,
          caretScrolled := true }) := by
  have hmem := occ_mem_spec st.text needle 0 st.selectionStart p
    (List.mem_of_mem_head? (by rw [hw]; exact rfl))
  have hkpos : 0 < needle.length := List.length_pos.mpr hk
  have hss : 0 < st.selectionStart := by omega
  simp only [find_next, ViewState.docLen, ViewState.setTarget,
    ViewState.searchInTarget, ViewState.setSel, ViewState.scrollCaret,
    ViewState.getTargetEnd, if_pos hse, hp, if_pos hss, hw,
    if_pos (Nat.zero_le st.selectionStart), if_pos trivial]

/-- Forward `find_next` with both ranges empty reports not-found and leaves
text and selection unchanged. -/
theorem find_next_fwd_miss (st : ViewState) (needle : List Nat) (flags : Nat)
    (hse : st.selectionEnd ≤ st.text.length)
    (hp : (occurrencesIn st.text needle st.selectionEnd
      st.text.length).head? = none)
    (hw : (occurrencesIn st.text needle 0 st.selectionStart).head? = none) :
    (find_next st needle flags true).1 = false
    ∧ (find_next st needle flags true).2.text = st.text
    ∧ (find_next st needle flags true).2.selAnchor = st.selAnchor
    ∧ (find_next st needle flags true).2.selCaret = st.selCaret := by
  by_cases hss : 0 < st.selectionStart
  · simp only [find_next, ViewState.docLen, ViewState.setTarget,
      ViewState.searchInTarget, if_pos hse, hp, if_pos hss, hw,
      if_pos (Nat.zero_le st.selectionStart), if_pos trivial]
    refine ⟨?_, ?_, ?_, ?_⟩ <;> first | rfl | trivial
  · simp only [find_next, ViewState.docLen, ViewState.setTarget,
      ViewState.searchInTarget, if_pos hse, hp, if_neg hss, if_pos trivial]
    refine ⟨?_, ?_, ?_, ?_⟩ <;> first | rfl | trivial

/-- Backward `find_next` with a hit in the reversed primary range
`[selection_start, 0)` selects the last match below the selection. -/
theorem find_next_bwd_hit (st : ViewState) (needle : List Nat) (flags p : Nat)
    (hk : needle ≠ [])
    (hp : (occurrencesIn st.text needle 0 st.selectionStart).getLast?
      = some p) :
    find_next st needle flags false =
      (true,
        { st with
          selAnchor := p, selCaret := p + needle.length,
          targetStart := p, targetEnd := p + needle.length,
          caretScrolled := true }) := by
  have hmem := occ_mem_spec st.text needle 0 st.selectionStart p
    (List.mem_of_mem_getLast? (by rw [hp]; exact rfl))
  have hkpos : 0 < needle.length := List.length_pos.mpr hk
  have hss : 0 < st.selectionStart := by omega
  have hns : ¬st.selectionStart ≤ 0 := by omega
  simp only [find_next, ViewState.docLen, ViewState.setTarget,
    ViewState.searchInTarget, ViewState.setSel, ViewState.scrollCaret,
    ViewState.getTargetEnd, if_pos hss, if_neg hns, hp, if_pos trivial,
    Bool.false_eq_true, Bool.false_eq_true, if_false]

/-- Backward `find_next` with an empty primary range but a wrapped hit in
the reversed `[doc_len, selection_end)` selects the last wrapped match. -/
theorem find_next_bwd_wrap_hit (st : ViewState) (needle : List Nat)
    (flags p : Nat) (hk : needle ≠ [])
    (hprim : (occurrencesIn st.text needle 0 st.selectionStart).getLast?
      = none)
    (hw : (occurrencesIn st.text needle st.selectionEnd
      st.text.length).getLast? = some p) :
    find_next st needle flags false =
      (true,
        { st with
          selAnchor := p, selCaret := p + needle.length,
          targetStart := p, targetEnd := p + needle.length,
          caretScrolled := true }) := by
  have hmem := occ_mem_spec st.text needle st.selectionEnd st.text.length p
    (List.mem_of_mem_getLast? (by rw [hw]; exact rfl))
  have hkpos : 0 < needle.length := List.length_pos.mpr hk
  have hlt : st.selectionEnd < st.text.length := by omega
  have hnt : ¬st.text.length ≤ st.selectionEnd := by omega
  by_cases hss : 0 < st.selectionStart
  · have hns : ¬st.selectionStart ≤ 0 := by omega
    simp only [find_next, ViewState.docLen, ViewState.setTarget,
      ViewState.searchInTarget, ViewState.setSel, ViewState.scrollCaret,
      ViewState.getTargetEnd, if_pos hss, if_neg hns, hprim, if_pos hlt,
      if_neg hnt, hw, if_pos trivial,
      Bool.false_eq_true, if_false]
  · simp only [find_next, ViewState.docLen, ViewState.setTarget,
      ViewState.searchInTarget, ViewState.setSel, ViewState.scrollCaret,
      ViewState.getTargetEnd, if_neg hss, if_pos hlt, if_neg hnt, hw,
      if_pos trivial, Bool.false_eq_true, if_false]

/-- Backward `find_next` with both ranges empty reports not-found and
leaves text and selection unchanged. -/
theorem find_next_bwd_miss (st : ViewState) (needle : List Nat) (flags : Nat)
    (hprim : (occurrencesIn st.text needle 0 st.selectionStart).getLast?
      = none)
    (hw : (occurrencesIn st.text needle st.selectionEnd
      st.text.length).getLast? = none) :
    (find_next st needle flags false).1 = false
    ∧ (find_next st needle flags false).2.text = st.text
    ∧ (find_next st needle flags false).2.selAnchor = st.selAnchor
    ∧ (find_next st needle flags false).2.selCaret = st.selCaret := by
  by_cases hss : 0 < st.selectionStart <;>
    by_cases hlt : st.selectionEnd < st.text.length
  · have hns : ¬st.selectionStart ≤ 0 := by omega
    have hnt : ¬st.text.length ≤ st.selectionEnd := by omega
    simp only [find_next, ViewState.docLen, ViewState.setTarget,
      ViewState.searchInTarget, if_pos hss, if_neg hns, hprim, if_pos hlt,
      if_neg hnt, hw, Bool.false_eq_true, if_false]
    refine ⟨?_, ?_, ?_, ?_⟩ <;> first | rfl | trivial
  · have hns : ¬st.selectionStart ≤ 0 := by omega
    simp only [find_next, ViewState.docLen, ViewState.setTarget,
      ViewState.searchInTarget, if_pos hss, if_neg hns, hprim, if_neg hlt,
      Bool.false_eq_true, if_false]
    refine ⟨?_, ?_, ?_, ?_⟩ <;> first | rfl | trivial
  · have hnt : ¬st.text.length ≤ st.selectionEnd := by omega
    simp only [find_next, ViewState.docLen, ViewState.setTarget,
      ViewState.searchInTarget, if_neg hss, if_pos hlt, if_neg hnt, hw,
      Bool.false_eq_true, if_false]
    refine ⟨?_, ?_, ?_, ?_⟩ <;> first | rfl | trivial
  · simp only [find_next, ViewState.docLen, ViewState.setTarget,
      ViewState.searchInTarget, if_neg hss, if_neg hlt,
      Bool.false_eq_true, if_false]
    refine ⟨?_, ?_, ?_, ?_⟩ <;> first | rfl | trivial

/-- **C7.** For a nonempty needle and an in-document selection,
`find_next` returns true exactly when the needle occurs in the primary
range or in the wrapped range (forward: `[selection_end, doc_len)` then
`[0, selection_start)`; backward: the same two ranges searched from the
other end); on a miss the text and the selection are unchanged; on a hit
the match extent is selected and the caret scrolled into view — forward
selects the first match of the primary range, else the first match of the
wrapped range; backward selects the last match below the selection, else
the last match of the wrapped range. -/
theorem C7_find_next_spec :
    ∀ (st : ViewState) (needle : List Nat) (flags : Nat) (forward : Bool),
      needle ≠ [] → st.selAnchor ≤ st.text.length →
      st.selCaret ≤ st.text.length →
      (((find_next st needle flags forward).1 = true ↔
        (occurrencesIn st.text needle st.selectionEnd st.text.length ≠ []
          ∨ occurrencesIn st.text needle 0 st.selectionStart ≠ []))
      ∧ ((find_next st needle flags forward).1 = false →
          (find_next st needle flags forward).2.text = st.text
          ∧ (find_next st needle flags forward).2.selAnchor = st.selAnchor
          ∧ (find_next st needle flags forward).2.selCaret = st.selCaret)
      ∧ (∀ p, forward = true →
          (occurrencesIn st.text needle st.selectionEnd
            st.text.length).head? = some p →
          find_next st needle flags forward =
            (true,
              { st with
                selAnchor := p, selCaret := p + needle.length,
                targetStart := p, targetEnd := p + needle.length,
                caretScrolled := true }))
      ∧ (∀ p, forward = true →
          occurrencesIn st.text needle st.selectionEnd st.text.length = [] →
          (occurrencesIn st.text needle 0 st.selectionStart).head?
            = some p →
          find_next st needle flags forward =
            (true,
              { st with
                selAnchor := p, selCaret := p + needle.length,
                targetStart := p, targetEnd := p + needle.length,
                caretScrolled := true }))
      ∧ (∀ p, forward = false →
          (occurrencesIn st.text needle 0 st.selectionStart).getLast?
            = some p →
          find_next st needle flags forward =
            (true,
              { st with
                selAnchor := p, selCaret := p + needle.length,
                targetStart := p, targetEnd := p + needle.length,
                caretScrolled := true }))
      ∧ (∀ p, forward = false →
          occurrencesIn st.text needle 0 st.selectionStart = [] →
          (occurrencesIn st.text needle st.selectionEnd
            st.text.length).getLast? = some p →
          find_next st needle flags forward =
            (true,
              { st with
                selAnchor := p, selCaret := p + needle.length,
                targetStart := p, targetEnd := p + needle.length,
                caretScrolled := true }))) := by
  intro st needle flags forward hk ha hc
  have hse := selectionEnd_le_len st ha hc
  cases forward
  · -- backward
    cases hocc1 : (occurrencesIn st.text needle 0
        st.selectionStart).getLast? with
    | some p0 =>
        have hEq := find_next_bwd_hit st needle flags p0 hk hocc1
        refine ⟨?_, ?_, ?_, ?_, ?_, ?_⟩
        · rw [hEq]
          exact ⟨fun _ => Or.inr (fun he => by
              rw [he] at hocc1; simp at hocc1),
            fun _ => rfl⟩
        · rw [hEq]
          intro h
          simp at h
        · intro p h
          simp at h
        · intro p h
          simp at h
        · intro p _ hocc
          cases hocc
          exact hEq
        · intro p _ hempty hocc
          rw [hempty] at hocc1
          simp at hocc1
    | none =>
        cases hocc2 : (occurrencesIn st.text needle st.selectionEnd
            st.text.length).getLast? with
        | some p0 =>
            have hEq := find_next_bwd_wrap_hit st needle flags p0 hk
              hocc1 hocc2
            refine ⟨?_, ?_, ?_, ?_, ?_, ?_⟩
            · rw [hEq]
              exact ⟨fun _ => Or.inl (fun he => by
                  rw [he] at hocc2; simp at hocc2),
                fun _ => rfl⟩
            · rw [hEq]
              intro h
              simp at h
            · intro p h
              simp at h
            · intro p h
              simp at h
            · intro p _ hocc
              cases hocc
            · intro p _ _ hocc
              cases hocc
              exact hEq
        | none =>
            have hm := find_next_bwd_miss st needle flags hocc1 hocc2
            refine ⟨?_, ?_, ?_, ?_, ?_, ?_⟩
            · rw [hm.1]
              constructor
              · intro h
                simp at h
              · intro h
                rcases h with h | h
                · exact absurd (List.getLast?_eq_none_iff.mp hocc2) h
                · exact absurd (List.getLast?_eq_none_iff.mp hocc1) h
            · intro _
              exact ⟨hm.2.1, hm.2.2.1, hm.2.2.2⟩
            · intro p h
              simp at h
            · intro p h
              simp at h
            · intro p _ hocc
              cases hocc
            · intro p _ _ hocc
              cases hocc
  · -- forward
    cases hocc1 : (occurrencesIn st.text needle st.selectionEnd
        st.text.length).head? with
    | some p0 =>
        have hEq := find_next_fwd_hit st needle flags p0 hse hocc1
        refine ⟨?_, ?_, ?_, ?_, ?_, ?_⟩
        · rw [hEq]
          exact ⟨fun _ => Or.inl (fun he => by
              rw [he] at hocc1; simp at hocc1),
            fun _ => rfl⟩
        · rw [hEq]
          intro h
          simp at h
        · intro p _ hocc
          cases hocc
          exact hEq
        · intro p _ hempty hocc
          rw [hempty] at hocc1
          simp at hocc1
        · intro p h
          simp at h
        · intro p h
          simp at h
    | none =>
        cases hocc2 : (occurrencesIn st.text needle 0
            st.selectionStart).head? with
        | some p0 =>
            have hEq := find_next_fwd_wrap_hit st needle flags p0 hk hse
              hocc1 hocc2
            refine ⟨?_, ?_, ?_, ?_, ?_, ?_⟩
            · rw [hEq]
              exact ⟨fun _ => Or.inr (fun he => by
                  rw [he] at hocc2; simp at hocc2),
                fun _ => rfl⟩
            · rw [hEq]
              intro h
              simp at h
            · intro p _ hocc
              cases hocc
            · intro p _ _ hocc
              cases hocc
              exact hEq
            · intro p h
              simp at h
            · intro p h
              simp at h
        | none =>
            have hm := find_next_fwd_miss st needle flags hse hocc1 hocc2
            refine ⟨?_, ?_, ?_, ?_, ?_, ?_⟩
            · rw [hm.1]
              constructor
              · intro h
                simp at h
              · intro h
                rcases h with h | h
                · exact absurd (List.head?_eq_none_iff.mp hocc1) h
                · exact absurd (List.head?_eq_none_iff.mp hocc2) h
            · intro _
              exact ⟨hm.2.1, hm.2.2.1, hm.2.2.2⟩
            · intro p _ hocc
              cases hocc
            · intro p _ _ hocc
              cases hocc
            · intro p h
              simp at h
            · intro p h
              simp at h

/-- Witness for C7: the claim's wrap example — the document `"abcdef"`
with its single match `"abc"` at the start and the selection placed after
it (caret at 5) still finds and selects that match after wrapping. -/
theorem C7_witness :
    (find_next { mkView [97, 98, 99, 100, 101, 102] with
        selAnchor := 5, selCaret := 5 } [97, 98, 99] 0 true).1 = true :=
  ((C7_find_next_spec
      { mkView [97, 98, 99, 100, 101, 102] with
        selAnchor := 5, selCaret := 5 }
      [97, 98, 99] 0 true (by decide) (by decide) (by decide)).1).mpr
    (by decide)

/-! ### Tab lifecycle (C1)

The multi-tab `App` (`tabs: Vec<DocumentState>`, `active_idx`,
`push_untitled`, `remove_tab`, `tab_count`) is repository code that is not
under src/ — only its callers in src/platform/win32/window.rs are.  Its
methods below are modelled from the spec (§4.2) and from those call
sites.  The handlers (`open_untitled_tab`, `open_file_in_new_tab`,
`load_file_into_active_tab`, `handle_close_tab`, the duplicate-path
activation in `handle_file_open`, and the active-tab clamp in
`restore_session`) are embedded from window.rs itself.  EditorView handles
are opaque: the view list holds fresh numeric ids. -/

/-- `LARGE_FILE_THRESHOLD_BYTES` (src/editor/mod.rs). -/
def LARGE_FILE_THRESHOLD_BYTES : Nat := 50 * 1024 * 1024

/-- Per-tab document state of the multi-tab `App` (the phase-3
`DocumentState` plus the `word_wrap` flag used by `handle_close_tab`). -/
structure TabDoc where
  path : Option String
  encoding : Encoding
  eol : EolMode
  dirty : Bool
  large_file : Bool
  word_wrap : Bool
deriving DecidableEq, Repr

/-- A fresh untitled document. -/
def TabDoc.untitled : TabDoc :=
  { path := none, encoding := Encoding.Utf8, eol := EolMode.Crlf,
    dirty := false, large_file := false, word_wrap := false }

/-- Modelled from the spec: the multi-tab `App` of §4.2 (SessionModel) —
an ordered collection of documents and the active index. -/
structure AppTabs where
  tabs : List TabDoc
  active_idx : Nat
deriving DecidableEq, Repr

/-- Modelled from the spec: `push_untitled` (§4.2) appends a fresh
untitled document and returns its index. -/
def AppTabs.push_untitled (a : AppTabs) : AppTabs × Nat :=
  ({ a with tabs := a.tabs ++ [TabDoc.untitled] }, a.tabs.length)

/-- Modelled from the spec: `remove_tab(idx)` (§4.2) removes `tabs[idx]`,
decrements `active_idx` when the removed index was before it, clamps it to
`len - 1`, and returns the new `active_idx` (used by the caller at
window.rs line 2203). -/
def AppTabs.remove_tab (a : AppTabs) (idx : Nat) : AppTabs × Nat :=
  let tabs2 := a.tabs.eraseIdx idx
  let act1 := if idx < a.active_idx then a.active_idx - 1 else a.active_idx
  let act2 := min act1 (tabs2.length - 1)
  ({ tabs := tabs2, active_idx := act2 }, act2)

/-- Modelled from the spec: `tab_count`. -/
def AppTabs.tab_count (a : AppTabs) : Nat := a.tabs.length

/-- The tab-related slice of `WindowState` (window.rs line 211): the app
plus the parallel `sci_views` list; `nextView` generates fresh handles. -/
structure TabsState where
  app : AppTabs
  views : List Nat
  nextView : Nat
deriving DecidableEq, Repr

/-- `App::open_file` applied to one document (src/app.rs lines 202-214):
sets path, detected encoding and EOL, the large-file flag, and clears
dirty. -/
def openDoc (d : TabDoc) (path : String) (bytes : List Nat) : TabDoc :=
  { d with
    path := some path,
    encoding := (detect_and_decode bytes).1,
    eol := detect_eol (detect_and_decode bytes).2,
    dirty := false,
    large_file := bytes.length > LARGE_FILE_THRESHOLD_BYTES }

/-- `open_untitled_tab` (window.rs lines 1399-1428): create a view, push
an untitled tab, make it active. -/
def openUntitledTab (s : TabsState) : TabsState :=
  let p := s.app.push_untitled
  { app := { p.1 with active_idx := p.2 },
    views := s.views ++ [s.nextView], nextView := s.nextView + 1 }

/-- `open_file_in_new_tab` (window.rs lines 1346-1393): create a view,
push an untitled tab, make it active, then load the file into it. -/
def openFileInNewTab (s : TabsState) (path : String) (bytes : List Nat) :
    TabsState :=
  let p := s.app.push_untitled
  let app2 := { p.1 with active_idx := p.2 }
  let app3 := { app2 with
    tabs := app2.tabs.set p.2 (openDoc TabDoc.untitled path bytes) }
  { app := app3, views := s.views ++ [s.nextView],
    nextView := s.nextView + 1 }

/-- `load_file_into_active_tab` (window.rs lines 1315-1340): load the file
into the active tab; the collections are unchanged. -/
def loadFileIntoActiveTab (s : TabsState) (path : String)
    (bytes : List Nat) : TabsState :=
  { s with app := { s.app with
    tabs := s.app.tabs.set s.app.active_idx
      (openDoc (s.app.tabs.getD s.app.active_idx TabDoc.untitled)
        path bytes) } }

/-- `handle_close_tab`'s document reset for the last remaining tab
(window.rs lines 2174-2180). -/
def resetDoc (d : TabDoc) : TabDoc :=
  { d with
    path := none, dirty := false, large_file := false,
    encoding := Encoding.Utf8, eol := EolMode.Crlf, word_wrap := false }

/-- `handle_close_tab` (window.rs lines 2147-2220) after the unsaved-
changes decision: `savedFirst` models the save-before-close path, in
which `save_tab_for_close` leaves `active_idx` pointed at `idx`
(window.rs line 2254).  If `idx` is the last remaining tab the document
is reset to untitled instead of being removed; otherwise the view at
`idx` is destroyed and removed and `App::remove_tab` updates the app,
returning the new active index.  An out-of-range `idx` is an invariant
violation (`tabs[idx]` would panic) and is modelled as `none`. -/
def handleCloseTab (s : TabsState) (idx : Nat) (savedFirst : Bool) :
    Option TabsState :=
  if idx < s.app.tabs.length then
    let act0 := if savedFirst then idx else s.app.active_idx
    if s.app.tab_count = 1 then
      some { s with
        app := { tabs := s.app.tabs.set 0
                   (resetDoc (s.app.tabs.getD 0 TabDoc.untitled)),
                 active_idx := act0 } }
    else
      let r := AppTabs.remove_tab { tabs := s.app.tabs, active_idx := act0 }
        idx
      some { app := r.1, views := s.views.eraseIdx idx,
             nextView := s.nextView }
  else none

/-- Activating an existing tab (`handle_file_open`'s duplicate-path case,
window.rs lines 1272-1291, and the tab-strip selection change): requires
a valid index. -/
def activateTab (s : TabsState) (idx : Nat) : Option TabsState :=
  if idx < s.app.tabs.length then
    some { s with app := { s.app with active_idx := idx } }
  else none

/-- `restore_session`'s final step (window.rs line 2385): the snapshot's
active tab clamped to the number of tabs actually restored. -/
def restoreActiveClamp (s : TabsState) (target : Nat) : TabsState :=
  { s with app := { s.app with
    active_idx := min target (s.app.tab_count - 1) } }

/-- The tab operations of the claim. -/
inductive TabOp where
  | newTab
  | openNew (path : String) (bytes : List Nat)
  | loadActive (path : String) (bytes : List Nat)
  | close (idx : Nat) (savedFirst : Bool)
  | activate (idx : Nat)
  | restoreClamp (target : Nat)

/-- One UI event. -/
def stepTab (s : TabsState) : TabOp → Option TabsState
  | TabOp.newTab => some (openUntitledTab s)
  | TabOp.openNew p b => some (openFileInNewTab s p b)
  | TabOp.loadActive p b => some (loadFileIntoActiveTab s p b)
  | TabOp.close idx saved => handleCloseTab s idx saved
  | TabOp.activate idx => activateTab s idx
  | TabOp.restoreClamp t => some (restoreActiveClamp s t)

/-- A sequence of UI events. -/
def runTabs (s : TabsState) : List TabOp → Option TabsState
  | [] => some s
  | op :: rest =>
      match stepTab s op with
      | none => none
      | some s2 => runTabs s2 rest

/-- The central invariant: as many views as tabs (index-aligned), tabs
never empty, active index valid. -/
def TabsInv (s : TabsState) : Prop :=
  s.views.length = s.app.tabs.length
    ∧ s.app.tabs ≠ []
    ∧ s.app.active_idx < s.app.tabs.length

/-- The startup state built by `create_child_controls` (window.rs lines
392-487): one untitled tab and one view. -/
def initialTabsState : TabsState :=
  { app := { tabs := [TabDoc.untitled], active_idx := 0 },
    views := [0], nextView := 1 }

/-- **C1.** The startup state satisfies the invariant — the EditorView
handle list has the same length as `tabs` (index `i` pairs with index
`i`), `tabs` is never empty (closing the last tab resets it to a fresh
untitled document instead of removing it) and `active_idx` indexes into
`tabs` — and every tab operation (new untitled tab, open in new tab, load
into active tab, close — with or without save-before-close —, activate,
session-restore clamp) preserves it, as does every sequence of such
operations. -/
theorem C1_tab_view_invariant :
    TabsInv initialTabsState
    ∧ (∀ (op : TabOp) (s s2 : TabsState), TabsInv s →
        stepTab s op = some s2 → TabsInv s2)
    ∧ (∀ (ops : List TabOp) (s s2 : TabsState), TabsInv s →
        runTabs s ops = some s2 → TabsInv s2) := by
  have hstep : ∀ (op : TabOp) (s s2 : TabsState), TabsInv s →
      stepTab s op = some s2 → TabsInv s2 := by
    intro op s s2 hInv h
    obtain ⟨hlen, hne, hact⟩ := hInv
    have hpos : 0 < s.app.tabs.length := List.length_pos.mpr hne
    cases op with
    | newTab =>
        cases h
        refine ⟨?_, ?_, ?_⟩
        · simp [openUntitledTab, AppTabs.push_untitled, hlen]
        · simp [openUntitledTab, AppTabs.push_untitled]
        · simp [openUntitledTab, AppTabs.push_untitled]
    | openNew p b =>
        cases h
        refine ⟨?_, ?_, ?_⟩
        · simp [openFileInNewTab, AppTabs.push_untitled, hlen]
        · refine List.length_pos.mp ?_
          simp only [openFileInNewTab, AppTabs.push_untitled,
            List.length_set, List.length_append]
          omega
        · simp [openFileInNewTab, AppTabs.push_untitled, List.length_set]
    | loadActive p b =>
        cases h
        refine ⟨?_, ?_, ?_⟩
        · simp [loadFileIntoActiveTab, hlen]
        · refine List.length_pos.mp ?_
          simp only [loadFileIntoActiveTab, List.length_set]
          omega
        · simp [loadFileIntoActiveTab, hact]
    | close idx saved =>
        simp only [stepTab, handleCloseTab] at h
        by_cases hidx : idx < s.app.tabs.length
        · rw [if_pos hidx] at h
          by_cases hone : s.app.tab_count = 1
          · rw [if_pos hone] at h
            cases h
            simp only [AppTabs.tab_count] at hone
            refine ⟨?_, ?_, ?_⟩
            · simpa [List.length_set] using hlen
            · exact List.length_pos.mp
                (by simp only [List.length_set]; omega)
            · simp only [List.length_set]
              split_ifs <;> omega
          · rw [if_neg hone] at h
            cases h
            simp only [AppTabs.tab_count] at hone
            refine ⟨?_, ?_, ?_⟩
            · simp only [AppTabs.remove_tab, List.length_eraseIdx]
              split_ifs <;> omega
            · refine List.length_pos.mp ?_
              simp only [AppTabs.remove_tab, List.length_eraseIdx]
              split_ifs
              all_goals omega
            · simp only [AppTabs.remove_tab, List.length_eraseIdx]
              split_ifs <;> omega
        · rw [if_neg hidx] at h
          cases h
    | activate idx =>
        simp only [stepTab, activateTab] at h
        by_cases hidx : idx < s.app.tabs.length
        · rw [if_pos hidx] at h
          cases h
          exact ⟨hlen, hne, hidx⟩
        · rw [if_neg hidx] at h
          cases h
    | restoreClamp t =>
        cases h
        refine ⟨hlen, hne, ?_⟩
        simp only [restoreActiveClamp, AppTabs.tab_count]
        omega
  have hrun : ∀ (ops : List TabOp) (s s2 : TabsState), TabsInv s →
      runTabs s ops = some s2 → TabsInv s2 := by
    intro ops
    induction ops with
    | nil =>
        intro s s2 hInv h
        simp only [runTabs] at h
        cases h
        exact hInv
    | cons op rest ih =>
        intro s s2 hInv h
        simp only [runTabs] at h
        cases hs : stepTab s op with
        | none => rw [hs] at h; cases h
        | some s3 =>
            rw [hs] at h
            exact ih s3 s2 (hstep op s s3 hInv hs) h
  exact ⟨⟨rfl, by simp [initialTabsState], by decide⟩, hstep, hrun⟩

/-- Witness for C1: the invariant holds after a concrete event sequence —
new tab, open a file in a new tab, close tab 1 with save-before-close,
activate tab 0, and clamp-restore an out-of-range snapshot index. -/
theorem C1_witness :
    TabsInv ((runTabs initialTabsState
      [TabOp.newTab, TabOp.openNew "a.txt" [104, 105], TabOp.close 1 true,
        TabOp.activate 0, TabOp.restoreClamp 9]).getD initialTabsState) :=
  C1_tab_view_invariant.2.2
    [TabOp.newTab, TabOp.openNew "a.txt" [104, 105], TabOp.close 1 true,
      TabOp.activate 0, TabOp.restoreClamp 9]
    initialTabsState _ C1_tab_view_invariant.1 (by decide)

end Rivet